import Mathlib

/-!
A shallow embedding of the write-once artifact store implemented in
src/libraries/datastore/data-store/data-store.ts, together with proofs of the
behavioural properties stated in the accompanying specification.

JavaScript strings are modelled as lists of Unicode scalar values
(Lean `Char`); JavaScript exceptions are modelled with `Except`; the mutable
store object is modelled by explicit state passing, with every operation
returning its result together with the state as left behind even when the
operation throws.  Object identity of artifact records (several store keys may
alias one record) is modelled by a two-level map: keys refer to record ids,
and a heap maps record ids to record contents.
-/

set_option maxHeartbeats 1000000

/-- JavaScript strings are modelled as lists of Unicode characters. -/
abbrev JStr := List Char

namespace DataStoreModel

/-! ### Decimal rendering of the store counter

The store key contains the decimal rendering of the `uid` counter, produced by
the template literal in `DataStore.createUri`. -/

/-- Decimal digit character of a value below ten. -/
def digitChar : Nat → Char
  | 0 => '0' | 1 => '1' | 2 => '2' | 3 => '3' | 4 => '4'
  | 5 => '5' | 6 => '6' | 7 => '7' | 8 => '8' | _ => '9'

/-- Numeric value of a decimal digit character (left inverse of `digitChar`). -/
def digVal (c : Char) : Nat :=
  match c with
  | '0' => 0 | '1' => 1 | '2' => 2 | '3' => 3 | '4' => 4
  | '5' => 5 | '6' => 6 | '7' => 7 | '8' => 8 | _ => 9

/-- Fuel-bounded decimal rendering (structural recursion so that concrete
keys evaluate inside the kernel). -/
def natReprAux : Nat → Nat → JStr
  | 0, _ => []
  | f + 1, n =>
    if n < 10 then [digitChar n]
    else natReprAux f (n / 10) ++ [digitChar (n % 10)]

/-- Decimal rendering of a natural number (most significant digit first), as
produced by the JavaScript template literal for a number. -/
def natRepr (n : Nat) : JStr :=
  natReprAux (n + 1) n

theorem natReprAux_irrel :
    ∀ f g n, n < f → n < g → natReprAux f n = natReprAux g n := by
  intro f
  induction f with
  | zero => intro g n h; omega
  | succ f ih =>
    intro g n hf hg
    cases g with
    | zero => omega
    | succ g =>
      show natReprAux (f + 1) n = natReprAux (g + 1) n
      by_cases h : n < 10
      · simp [natReprAux, h]
      · have hdiv : n / 10 < n := Nat.div_lt_self (by omega) (by omega)
        simp only [natReprAux, if_neg h]
        rw [ih g (n / 10) (by omega) (by omega)]

/-- One-step unfolding of the decimal rendering. -/
theorem natRepr_unfold (n : Nat) :
    natRepr n = if n < 10 then [digitChar n]
                else natRepr (n / 10) ++ [digitChar (n % 10)] := by
  show natReprAux (n + 1) n = _
  by_cases h : n < 10
  · simp [natReprAux, h]
  · have hdiv : n / 10 < n := Nat.div_lt_self (by omega) (by omega)
    simp only [natReprAux, if_neg h]
    rw [natReprAux_irrel n (n / 10 + 1) (n / 10) (by omega) (by omega)]
    rfl

/-- Parse a list of decimal digit characters back to a number. -/
def parseNat (l : JStr) : Nat :=
  l.foldl (fun acc c => acc * 10 + digVal c) 0

theorem digVal_digitChar {d : Nat} (h : d < 10) : digVal (digitChar d) = d := by
  interval_cases d <;> rfl

theorem digitChar_isDigit (d : Nat) : (digitChar d).isDigit := by
  unfold digitChar; split <;> decide

theorem parseNat_natRepr (n : Nat) : parseNat (natRepr n) = n := by
  induction n using Nat.strong_induction_on with
  | _ n ih =>
    rw [natRepr_unfold]
    by_cases h : n < 10
    · rw [if_pos h]
      simp [parseNat, digVal_digitChar h]
    · rw [if_neg h]
      have hd : n / 10 < n := Nat.div_lt_self (by omega) (by omega)
      have hrec := ih _ hd
      have hm : n % 10 < 10 := Nat.mod_lt _ (by omega)
      simp only [parseNat, List.foldl_append, List.foldl_cons, List.foldl_nil] at hrec ⊢
      rw [hrec, digVal_digitChar hm]
      omega

/-- Rendered counters are injective (via the parse round trip). -/
theorem natRepr_inj {n m : Nat} (h : natRepr n = natRepr m) : n = m := by
  have := parseNat_natRepr n
  rw [h, parseNat_natRepr m] at this
  omega

theorem natRepr_digits (n : Nat) : ∀ c ∈ natRepr n, c.isDigit := by
  induction n using Nat.strong_induction_on with
  | _ n ih =>
    rw [natRepr_unfold]
    by_cases h : n < 10
    · rw [if_pos h]
      intro c hc
      simp only [List.mem_singleton] at hc
      subst hc
      exact digitChar_isDigit n
    · rw [if_neg h]
      intro c hc
      rcases List.mem_append.1 hc with h1 | h2
      · exact ih _ (Nat.div_lt_self (by omega) (by omega)) c h1
      · simp only [List.mem_singleton] at h2
        subst h2
        exact digitChar_isDigit (n % 10)

theorem isDigit_ne_question {c : Char} (h : c.isDigit) : c ≠ '?' := by
  intro hq; subst hq; simp [Char.isDigit] at h

/-! ### Percent encoding

Model of the JavaScript built-ins `encodeURIComponent` and
`decodeURIComponent` used by `DataStore.createUri` and by the
`DataHandle.Description` getter.  `encodeURIComponent` keeps unreserved
characters verbatim and replaces every other character by the percent-escaped
bytes of its UTF-8 encoding; `decodeURIComponent` reverses this.  The decoder
below accepts exactly the well-formed escape sequences the encoder can emit
(the real built-in additionally rejects a few malformed inputs, e.g. overlong
UTF-8 encodings, which the encoder never produces). -/

/-- Characters kept verbatim by `encodeURIComponent`: ASCII alphanumerics and
the marks minus, underscore, dot, bang, tilde, star, apostrophe and
parentheses. -/
def isUnreserved (c : Char) : Bool :=
  c.isAlphanum || c == '-' || c == '_' || c == '.' || c == '!'
    || c == '~' || c == '*' || c == Char.ofNat 39 || c == '(' || c == ')'

/-- Uppercase hexadecimal digit of a value below sixteen. -/
def hexDigit : Nat → Char
  | 0 => '0' | 1 => '1' | 2 => '2' | 3 => '3' | 4 => '4'
  | 5 => '5' | 6 => '6' | 7 => '7' | 8 => '8' | 9 => '9'
  | 10 => 'A' | 11 => 'B' | 12 => 'C' | 13 => 'D' | 14 => 'E' | _ => 'F'

/-- Value of a hexadecimal digit character, upper or lower case, computed
from the character's code point by range. -/
def hexVal (c : Char) : Option Nat :=
  if '0' ≤ c ∧ c ≤ '9' then some (c.toNat - 48)
  else if 'A' ≤ c ∧ c ≤ 'F' then some (c.toNat - 55)
  else if 'a' ≤ c ∧ c ≤ 'f' then some (c.toNat - 87)
  else none

theorem hexVal_hexDigit {d : Nat} (h : d < 16) : hexVal (hexDigit d) = some d := by
  interval_cases d <;> decide

theorem hexDigit_ne_question (d : Nat) : hexDigit d ≠ '?' := by
  unfold hexDigit; split <;> decide

theorem hexDigit_ne_pct (d : Nat) : hexDigit d ≠ '%' := by
  unfold hexDigit; split <;> decide

/-- UTF-8 byte sequence of a Unicode scalar value. -/
def utf8Bytes (n : Nat) : List Nat :=
  if n < 0x80 then [n]
  else if n < 0x800 then [0xC0 + n / 64, 0x80 + n % 64]
  else if n < 0x10000 then [0xE0 + n / 4096, 0x80 + n / 64 % 64, 0x80 + n % 64]
  else [0xF0 + n / 262144, 0x80 + n / 4096 % 64, 0x80 + n / 64 % 64, 0x80 + n % 64]

/-- Percent escape of one byte. -/
def percentByte (b : Nat) : JStr :=
  ['%', hexDigit (b / 16), hexDigit (b % 16)]

/-- Encoding of a single character under `encodeURIComponent`. -/
def encodeChar (c : Char) : JStr :=
  if isUnreserved c then [c] else (utf8Bytes c.toNat).flatMap percentByte

/-- Model of the JavaScript built-in `encodeURIComponent`. -/
def encodeURIComponent (s : JStr) : JStr :=
  s.flatMap encodeChar

/-- Parse two hexadecimal digit characters as one byte. -/
def hexByte (c1 c2 : Char) : Option Nat :=
  match hexVal c1, hexVal c2 with
  | some h1, some h2 => some (16 * h1 + h2)
  | _, _ => none

/-- Whether a byte is a UTF-8 continuation byte. -/
def contByte (b : Nat) : Bool :=
  decide (0x80 ≤ b ∧ b < 0xC0)

/-- Decode one percent-escaped code point.  The argument is the input after an
initial percent sign; the result is the decoded character together with the
total number of input characters consumed (including the escapes' inner
percent signs but not the initial one). -/
def decodeOne : JStr → Option (Char × Nat)
  | c1 :: c2 :: rest =>
    match hexByte c1 c2 with
    | none => none
    | some b =>
      if b < 0x80 then some (Char.ofNat b, 2)
      else if b < 0xC0 then none
      else if b < 0xE0 then
        match rest with
        | '%' :: d1 :: d2 :: _ =>
          match hexByte d1 d2 with
          | some b2 =>
            if contByte b2 then some (Char.ofNat ((b - 0xC0) * 64 + (b2 - 0x80)), 5)
            else none
          | none => none
        | _ => none
      else if b < 0xF0 then
        match rest with
        | '%' :: d1 :: d2 :: '%' :: e1 :: e2 :: _ =>
          match hexByte d1 d2, hexByte e1 e2 with
          | some b2, some b3 =>
            if contByte b2 && contByte b3 then
              some (Char.ofNat ((b - 0xE0) * 4096 + (b2 - 0x80) * 64 + (b3 - 0x80)), 8)
            else none
          | _, _ => none
        | _ => none
      else if b < 0xF8 then
        match rest with
        | '%' :: d1 :: d2 :: '%' :: e1 :: e2 :: '%' :: f1 :: f2 :: _ =>
          match hexByte d1 d2, hexByte e1 e2, hexByte f1 f2 with
          | some b2, some b3, some b4 =>
            if contByte b2 && contByte b3 && contByte b4 then
              some (Char.ofNat
                ((b - 0xF0) * 262144 + (b2 - 0x80) * 4096 + (b3 - 0x80) * 64 + (b4 - 0x80)), 11)
            else none
          | _, _, _ => none
        | _ => none
      else none
  | _ => none

/-- Fuel-bounded body of the decoder (structural recursion so that concrete
descriptions evaluate inside the kernel); the fuel bounds the input length. -/
def decodeAux : Nat → JStr → Option JStr
  | _, [] => some []
  | 0, _ :: _ => none
  | fuel + 1, c :: rest =>
    if c = '%' then
      match decodeOne rest with
      | some (ch, k) => (decodeAux fuel (rest.drop k)).map (ch :: ·)
      | none => none
    else (decodeAux fuel rest).map (c :: ·)

/-- Model of the JavaScript built-in `decodeURIComponent` (returning `none`
where the built-in throws a URIError). -/
def decodeURIComponent (s : JStr) : Option JStr :=
  decodeAux s.length s

theorem decodeAux_irrel :
    ∀ f g s, s.length ≤ f → s.length ≤ g → decodeAux f s = decodeAux g s := by
  intro f
  induction f with
  | zero =>
    intro g s hf hg
    cases s with
    | nil => cases g <;> rfl
    | cons c rest => simp at hf
  | succ f ih =>
    intro g s hf hg
    cases s with
    | nil => cases g <;> rfl
    | cons c rest =>
      cases g with
      | zero => simp at hg
      | succ g =>
        simp only [List.length_cons, Nat.succ_le_succ_iff] at hf hg
        show decodeAux (f + 1) (c :: rest) = decodeAux (g + 1) (c :: rest)
        simp only [decodeAux]
        by_cases hc : c = '%'
        · rw [if_pos hc, if_pos hc]
          cases hdo : decodeOne rest with
          | none => rfl
          | some p =>
            rcases p with ⟨ch, k⟩
            show (decodeAux f (rest.drop k)).map (ch :: ·) =
              (decodeAux g (rest.drop k)).map (ch :: ·)
            rw [ih g (rest.drop k) (by simp [List.length_drop]; omega)
              (by simp [List.length_drop]; omega)]
        · rw [if_neg hc, if_neg hc, ih g rest hf hg]

theorem decode_nil : decodeURIComponent [] = some [] := rfl

theorem decode_cons_ne (c : Char) (rest : JStr) (h : ¬c = '%') :
    decodeURIComponent (c :: rest) = (decodeURIComponent rest).map (c :: ·) := by
  show decodeAux (rest.length + 1) (c :: rest) = _
  simp only [decodeAux, if_neg h]
  rfl

theorem decode_cons_pct (rest : JStr) :
    decodeURIComponent ('%' :: rest) =
      match decodeOne rest with
      | some (ch, k) => (decodeURIComponent (rest.drop k)).map (ch :: ·)
      | none => none := by
  show decodeAux (rest.length + 1) ('%' :: rest) = _
  simp only [decodeAux, if_pos rfl, eq_self_iff_true, if_true]
  cases hdo : decodeOne rest with
  | none => rfl
  | some p =>
    rcases p with ⟨ch, k⟩
    show (decodeAux rest.length (rest.drop k)).map (ch :: ·) =
      (decodeURIComponent (rest.drop k)).map (ch :: ·)
    rw [decodeAux_irrel rest.length (rest.drop k).length (rest.drop k)
      (by simp [List.length_drop]) (by omega)]
    rfl

theorem char_toNat_lt (c : Char) : c.toNat < 1114112 := by
  have h := c.valid
  show c.val.toNat < 1114112
  rcases h with h | h <;> omega

theorem decodeOne_one {b : Nat} (hb : b < 128) (tail : JStr) :
    decodeOne (hexDigit (b / 16) :: hexDigit (b % 16) :: tail) = some (Char.ofNat b, 2) := by
  have h1 : b / 16 < 16 := by omega
  have h2 : b % 16 < 16 := by omega
  have hb' : 16 * (b / 16) + b % 16 = b := Nat.div_add_mod b 16
  simp only [decodeOne, hexByte, hexVal_hexDigit h1, hexVal_hexDigit h2, hb']
  rw [if_pos hb]

theorem decodeOne_two {n : Nat} (hlo : 128 ≤ n) (hhi : n < 2048) (tail : JStr) :
    decodeOne (hexDigit ((192 + n / 64) / 16) :: hexDigit ((192 + n / 64) % 16) :: '%' ::
        hexDigit ((128 + n % 64) / 16) :: hexDigit ((128 + n % 64) % 16) :: tail)
      = some (Char.ofNat n, 5) := by
  have h11 : (192 + n / 64) / 16 < 16 := by omega
  have h12 : (192 + n / 64) % 16 < 16 := by omega
  have h21 : (128 + n % 64) / 16 < 16 := by omega
  have h22 : (128 + n % 64) % 16 < 16 := by omega
  have hv1 : 16 * ((192 + n / 64) / 16) + (192 + n / 64) % 16 = 192 + n / 64 :=
    Nat.div_add_mod _ 16
  have hv2 : 16 * ((128 + n % 64) / 16) + (128 + n % 64) % 16 = 128 + n % 64 :=
    Nat.div_add_mod _ 16
  have hc : contByte (128 + n % 64) = true := by
    simp only [contByte, decide_eq_true_eq]; omega
  simp only [decodeOne, hexByte, hexVal_hexDigit h11, hexVal_hexDigit h12,
    hexVal_hexDigit h21, hexVal_hexDigit h22, hv1, hv2, hc]
  rw [if_neg (by omega), if_neg (by omega), if_pos (by omega), if_pos trivial]
  have harith : (192 + n / 64 - 192) * 64 + (128 + n % 64 - 128) = n := by omega
  rw [harith]

theorem decodeOne_three {n : Nat} (hlo : 2048 ≤ n) (hhi : n < 65536) (tail : JStr) :
    decodeOne (hexDigit ((224 + n / 4096) / 16) :: hexDigit ((224 + n / 4096) % 16) :: '%' ::
        hexDigit ((128 + n / 64 % 64) / 16) :: hexDigit ((128 + n / 64 % 64) % 16) :: '%' ::
        hexDigit ((128 + n % 64) / 16) :: hexDigit ((128 + n % 64) % 16) :: tail)
      = some (Char.ofNat n, 8) := by
  have h11 : (224 + n / 4096) / 16 < 16 := by omega
  have h12 : (224 + n / 4096) % 16 < 16 := by omega
  have h21 : (128 + n / 64 % 64) / 16 < 16 := by omega
  have h22 : (128 + n / 64 % 64) % 16 < 16 := by omega
  have h31 : (128 + n % 64) / 16 < 16 := by omega
  have h32 : (128 + n % 64) % 16 < 16 := by omega
  have hv1 : 16 * ((224 + n / 4096) / 16) + (224 + n / 4096) % 16 = 224 + n / 4096 :=
    Nat.div_add_mod _ 16
  have hv2 : 16 * ((128 + n / 64 % 64) / 16) + (128 + n / 64 % 64) % 16 = 128 + n / 64 % 64 :=
    Nat.div_add_mod _ 16
  have hv3 : 16 * ((128 + n % 64) / 16) + (128 + n % 64) % 16 = 128 + n % 64 :=
    Nat.div_add_mod _ 16
  have hc2 : contByte (128 + n / 64 % 64) = true := by
    simp only [contByte, decide_eq_true_eq]; omega
  have hc3 : contByte (128 + n % 64) = true := by
    simp only [contByte, decide_eq_true_eq]; omega
  simp only [decodeOne, hexByte, hexVal_hexDigit h11, hexVal_hexDigit h12,
    hexVal_hexDigit h21, hexVal_hexDigit h22, hexVal_hexDigit h31, hexVal_hexDigit h32,
    hv1, hv2, hv3, hc2, hc3, Bool.and_self]
  rw [if_neg (by omega), if_neg (by omega), if_neg (by omega), if_pos (by omega), if_pos trivial]
  have harith : (224 + n / 4096 - 224) * 4096 + (128 + n / 64 % 64 - 128) * 64
      + (128 + n % 64 - 128) = n := by omega
  rw [harith]

theorem decodeOne_four {n : Nat} (hlo : 65536 ≤ n) (hhi : n < 1114112) (tail : JStr) :
    decodeOne (hexDigit ((240 + n / 262144) / 16) :: hexDigit ((240 + n / 262144) % 16) :: '%' ::
        hexDigit ((128 + n / 4096 % 64) / 16) :: hexDigit ((128 + n / 4096 % 64) % 16) :: '%' ::
        hexDigit ((128 + n / 64 % 64) / 16) :: hexDigit ((128 + n / 64 % 64) % 16) :: '%' ::
        hexDigit ((128 + n % 64) / 16) :: hexDigit ((128 + n % 64) % 16) :: tail)
      = some (Char.ofNat n, 11) := by
  have h11 : (240 + n / 262144) / 16 < 16 := by omega
  have h12 : (240 + n / 262144) % 16 < 16 := by omega
  have h21 : (128 + n / 4096 % 64) / 16 < 16 := by omega
  have h22 : (128 + n / 4096 % 64) % 16 < 16 := by omega
  have h31 : (128 + n / 64 % 64) / 16 < 16 := by omega
  have h32 : (128 + n / 64 % 64) % 16 < 16 := by omega
  have h41 : (128 + n % 64) / 16 < 16 := by omega
  have h42 : (128 + n % 64) % 16 < 16 := by omega
  have hv1 : 16 * ((240 + n / 262144) / 16) + (240 + n / 262144) % 16 = 240 + n / 262144 :=
    Nat.div_add_mod _ 16
  have hv2 : 16 * ((128 + n / 4096 % 64) / 16) + (128 + n / 4096 % 64) % 16
      = 128 + n / 4096 % 64 := Nat.div_add_mod _ 16
  have hv3 : 16 * ((128 + n / 64 % 64) / 16) + (128 + n / 64 % 64) % 16 = 128 + n / 64 % 64 :=
    Nat.div_add_mod _ 16
  have hv4 : 16 * ((128 + n % 64) / 16) + (128 + n % 64) % 16 = 128 + n % 64 :=
    Nat.div_add_mod _ 16
  have hc2 : contByte (128 + n / 4096 % 64) = true := by
    simp only [contByte, decide_eq_true_eq]; omega
  have hc3 : contByte (128 + n / 64 % 64) = true := by
    simp only [contByte, decide_eq_true_eq]; omega
  have hc4 : contByte (128 + n % 64) = true := by
    simp only [contByte, decide_eq_true_eq]; omega
  simp only [decodeOne, hexByte, hexVal_hexDigit h11, hexVal_hexDigit h12,
    hexVal_hexDigit h21, hexVal_hexDigit h22, hexVal_hexDigit h31, hexVal_hexDigit h32,
    hexVal_hexDigit h41, hexVal_hexDigit h42, hv1, hv2, hv3, hv4, hc2, hc3, hc4,
    Bool.and_self]
  rw [if_neg (by omega), if_neg (by omega), if_neg (by omega), if_neg (by omega),
    if_pos (by omega), if_pos trivial]
  have harith : (240 + n / 262144 - 240) * 262144 + (128 + n / 4096 % 64 - 128) * 4096
      + (128 + n / 64 % 64 - 128) * 64 + (128 + n % 64 - 128) = n := by omega
  rw [harith]

/-- Decoding the percent-escape sequence of one code point recovers it. -/
theorem decode_pct_seq {n : Nat} (hn : n < 1114112) (tail : JStr) :
    decodeURIComponent ((utf8Bytes n).flatMap percentByte ++ tail) =
      (decodeURIComponent tail).map (Char.ofNat n :: ·) := by
  by_cases h1 : n < 128
  · simp only [utf8Bytes, if_pos h1, List.flatMap_cons, List.flatMap_nil, percentByte,
      List.append_nil, List.cons_append, List.nil_append]
    rw [decode_cons_pct, decodeOne_one h1]
    simp
  · by_cases h2 : n < 2048
    · simp only [utf8Bytes, if_neg h1, if_pos h2, List.flatMap_cons, List.flatMap_nil,
        percentByte, List.append_nil, List.cons_append, List.nil_append]
      rw [decode_cons_pct, decodeOne_two (by omega) h2]
      simp
    · by_cases h3 : n < 65536
      · simp only [utf8Bytes, if_neg h1, if_neg h2, if_pos h3, List.flatMap_cons,
          List.flatMap_nil, percentByte, List.append_nil, List.cons_append, List.nil_append]
        rw [decode_cons_pct, decodeOne_three (by omega) h3]
        simp
      · simp only [utf8Bytes, if_neg h1, if_neg h2, if_neg h3, List.flatMap_cons,
          List.flatMap_nil, percentByte, List.append_nil, List.cons_append, List.nil_append]
        rw [decode_cons_pct, decodeOne_four (by omega) hn]
        simp

theorem unreserved_ne_pct {c : Char} (hu : isUnreserved c) : ¬c = '%' := by
  intro h; subst h; exact absurd hu (by decide)

/-- Decoding the encoding of one character in front of an encoded tail peels
off exactly that character. -/
theorem decode_encodeChar (c : Char) (tail : JStr) :
    decodeURIComponent (encodeChar c ++ tail) = (decodeURIComponent tail).map (c :: ·) := by
  by_cases hu : isUnreserved c
  · simp only [encodeChar, if_pos hu, List.singleton_append]
    exact decode_cons_ne c tail (unreserved_ne_pct hu)
  · simp only [encodeChar, if_neg hu]
    rw [decode_pct_seq (char_toNat_lt c), Char.ofNat_toNat]

/-- Round trip of the percent-encoding pair: decoding an encoded string
recovers it exactly. -/
theorem decode_encode (s : JStr) :
    decodeURIComponent (encodeURIComponent s) = some s := by
  induction s with
  | nil => exact decode_nil
  | cons c rest ih =>
    simp only [encodeURIComponent, List.flatMap_cons] at ih ⊢
    rw [decode_encodeChar, ih]
    rfl

/-- The encoder never emits a question mark (so the question mark separating
the counter from the description in a store key is the last one). -/
theorem encodeChar_ne_question {c : Char} : ∀ x ∈ encodeChar c, x ≠ '?' := by
  intro x hx
  unfold encodeChar at hx
  by_cases hu : isUnreserved c
  · rw [if_pos hu] at hx
    simp only [List.mem_singleton] at hx
    subst hx
    intro h
    subst h
    exact absurd hu (by decide)
  · rw [if_neg hu] at hx
    rcases List.mem_flatMap.1 hx with ⟨b, _, hb⟩
    simp only [percentByte, List.mem_cons, List.mem_singleton, List.not_mem_nil,
      or_false] at hb
    rcases hb with h | h | h <;> subst h
    · decide
    · exact hexDigit_ne_question _
    · exact hexDigit_ne_question _

theorem encode_ne_question (s : JStr) : ∀ x ∈ encodeURIComponent s, x ≠ '?' := by
  intro x hx
  rcases List.mem_flatMap.1 hx with ⟨c, _, hc⟩
  exact encodeChar_ne_question x hc

/-! ### Keys and uri resolution -/

/-- Character list of the reserved in-memory scheme root (DataStore.BaseUri). -/
def memRoot : JStr := ['m', 'e', 'm', ':', '/', '/']

/-- Whether the pattern list is a prefix of the subject list. -/
def prefixSeq : JStr → JStr → Bool
  | [], _ => true
  | _ :: _, [] => false
  | p :: ps, c :: cs => p == c && prefixSeq ps cs

/-- Whether the pattern list occurs inside the subject list. -/
def infixSeq (pat : JStr) : JStr → Bool
  | [] => prefixSeq pat []
  | c :: cs => prefixSeq pat (c :: cs) || infixSeq pat cs

/-- The scheme separator that marks a uri reference as absolute. -/
def schemeSep : JStr := [':', '/', '/']

/-- Modelled from the spec: `ResolveUri` of the repository uri library is not
under src/.  Per the key-namespace section of the spec, keys are resolvable
against a single reserved scheme root and a bare reference is combined with
the root, so resolution of a reference that already carries a scheme
separator leaves it unchanged and resolution of a bare reference prefixes the
base. -/
def ResolveUri (base rel : JStr) : JStr :=
  if infixSeq schemeSep rel then rel else base ++ rel

/-- Model of DataStore.createUri for a given current counter value: the
counter, a question mark and the percent-encoded description, resolved
against the in-memory root. -/
def createUri (uid : Nat) (description : JStr) : JStr :=
  ResolveUri memRoot (natRepr uid ++ '?' :: encodeURIComponent description)

theorem prefixSeq_self_append (p r : JStr) : prefixSeq p (p ++ r) = true := by
  induction p with
  | nil => rfl
  | cons a as ih => simp [prefixSeq, ih]

theorem infixSeq_eq_false {pat l : JStr} {q : Char} (hpat : pat = q :: pat.tail)
    (h : ∀ c ∈ l, c ≠ q) : infixSeq pat l = false := by
  induction l with
  | nil => rw [hpat]; rfl
  | cons c cs ih =>
    show (prefixSeq pat (c :: cs) || infixSeq pat cs) = false
    rw [ih (fun x hx => h x (List.mem_cons_of_mem c hx))]
    rw [hpat]
    show (q == c && prefixSeq pat.tail cs || false) = false
    have hq : (q == c) = false := by
      have := h c (List.mem_cons_self c cs)
      simp [beq_eq_false_iff_ne]
      intro heq
      exact this heq.symm
    simp [hq]

theorem unreserved_ne_colon {c : Char} (hu : isUnreserved c) : c ≠ ':' := by
  intro h; subst h; exact absurd hu (by decide)

theorem encodeChar_ne_colon {c : Char} : ∀ x ∈ encodeChar c, x ≠ ':' := by
  intro x hx
  unfold encodeChar at hx
  by_cases hu : isUnreserved c
  · rw [if_pos hu] at hx
    simp only [List.mem_singleton] at hx
    subst hx
    exact unreserved_ne_colon hu
  · rw [if_neg hu] at hx
    rcases List.mem_flatMap.1 hx with ⟨b, _, hb⟩
    simp only [percentByte, List.mem_cons, List.mem_singleton, List.not_mem_nil,
      or_false] at hb
    rcases hb with h | h | h <;> subst h
    · decide
    · unfold hexDigit; split <;> decide
    · unfold hexDigit; split <;> decide

theorem encode_ne_colon (s : JStr) : ∀ x ∈ encodeURIComponent s, x ≠ ':' := by
  intro x hx
  rcases List.mem_flatMap.1 hx with ⟨c, _, hc⟩
  exact encodeChar_ne_colon x hc

theorem isDigit_ne_colon {c : Char} (h : c.isDigit) : c ≠ ':' := by
  intro hq; subst hq; simp [Char.isDigit] at h

/-- The relative reference built by createUri carries no scheme separator, so
resolving it against the root is plain concatenation. -/
theorem createUri_eq (uid : Nat) (d : JStr) :
    createUri uid d = memRoot ++ natRepr uid ++ '?' :: encodeURIComponent d := by
  unfold createUri ResolveUri
  have hnc : ∀ c ∈ natRepr uid ++ '?' :: encodeURIComponent d, c ≠ ':' := by
    intro c hc
    rcases List.mem_append.1 hc with h1 | h2
    · exact isDigit_ne_colon (natRepr_digits uid c h1)
    · rcases List.mem_cons.1 h2 with h3 | h4
      · subst h3; decide
      · exact encode_ne_colon d c h4
  rw [infixSeq_eq_false rfl hnc]
  simp

/-- A uri that already starts with the in-memory root resolves to itself. -/
theorem resolveUri_memRoot_append (l : JStr) :
    ResolveUri memRoot (memRoot ++ l) = memRoot ++ l := by
  unfold ResolveUri
  have : infixSeq schemeSep (memRoot ++ l) = true := by
    show infixSeq schemeSep ('m' :: 'e' :: 'm' :: ':' :: '/' :: '/' :: l) = true
    have hp : prefixSeq schemeSep (':' :: '/' :: '/' :: l) = true :=
      prefixSeq_self_append schemeSep l
    simp [infixSeq, hp]
  rw [this]
  simp

theorem resolveUri_createUri (uid : Nat) (d : JStr) :
    ResolveUri memRoot (createUri uid d) = createUri uid d := by
  rw [createUri_eq, List.append_assoc]
  exact resolveUri_memRoot_append _

/-- Splitting at a separator absent from both left parts is unambiguous. -/
theorem append_sep_inj {q : Char} :
    ∀ {A B X Y : JStr}, (∀ c ∈ A, c ≠ q) → (∀ c ∈ B, c ≠ q) →
      A ++ q :: X = B ++ q :: Y → A = B ∧ X = Y := by
  intro A
  induction A with
  | nil =>
    intro B X Y _ hB h
    cases B with
    | nil => simpa using h
    | cons b bs =>
      simp only [List.nil_append, List.cons_append, List.cons.injEq] at h
      exact absurd h.1.symm (hB b (List.mem_cons_self b bs))
  | cons a as ih =>
    intro B X Y hA hB h
    cases B with
    | nil =>
      simp only [List.cons_append, List.nil_append, List.cons.injEq] at h
      exact absurd h.1 (hA a (List.mem_cons_self a as))
    | cons b bs =>
      simp only [List.cons_append, List.cons.injEq] at h
      obtain ⟨hab, h2⟩ := h
      obtain ⟨h3, h4⟩ := ih (fun c hc => hA c (List.mem_cons_of_mem a hc))
        (fun c hc => hB c (List.mem_cons_of_mem b hc)) h2
      subst hab
      exact ⟨by rw [h3], h4⟩

/-- Keys built from distinct counter values are distinct. -/
theorem createUri_uid_inj {n m : Nat} {d e : JStr}
    (h : createUri n d = createUri m e) : n = m := by
  rw [createUri_eq, createUri_eq, List.append_assoc, List.append_assoc] at h
  have h2 : natRepr n ++ '?' :: encodeURIComponent d
      = natRepr m ++ '?' :: encodeURIComponent e :=
    List.append_cancel_left h
  have hA : ∀ c ∈ natRepr n, c ≠ '?' :=
    fun c hc => isDigit_ne_question (natRepr_digits n c hc)
  have hB : ∀ c ∈ natRepr m, c ≠ '?' :=
    fun c hc => isDigit_ne_question (natRepr_digits m c hc)
  exact natRepr_inj (append_sep_inj hA hB h2).1

/-! ### Description decoding -/

/-- Segment of a key after its last question mark, as computed by
key.split on question marks followed by reverse and taking the head. -/
def afterLastQ (s : JStr) : JStr :=
  ((s.reverse.takeWhile (fun c => c != '?')).reverse)

/-- Model of the DataHandle.Description getter: percent-decode the text after
the last question mark of the key (`none` where the JavaScript built-in
would throw on a malformed escape). -/
def Description (key : JStr) : Option JStr :=
  decodeURIComponent (afterLastQ key)

theorem takeWhile_append_stop (p : Char → Bool) :
    ∀ {A : JStr} {b : Char} {B : JStr}, (∀ c ∈ A, p c = true) → p b = false →
      (A ++ b :: B).takeWhile p = A := by
  intro A
  induction A with
  | nil =>
    intro b B _ hb
    simp [List.takeWhile_cons, hb]
  | cons a as ih =>
    intro b B hA hb
    have ha : p a = true := hA a (List.mem_cons_self a as)
    simp only [List.cons_append, List.takeWhile_cons, ha, if_true]
    rw [ih (fun c hc => hA c (List.mem_cons_of_mem a hc)) hb]

/-- The text after the last question mark of a key is exactly the encoded
description. -/
theorem afterLastQ_createUri (uid : Nat) (d : JStr) :
    afterLastQ (createUri uid d) = encodeURIComponent d := by
  rw [createUri_eq]
  unfold afterLastQ
  have hsplit : (memRoot ++ natRepr uid ++ '?' :: encodeURIComponent d).reverse
      = (encodeURIComponent d).reverse ++ '?' :: (memRoot ++ natRepr uid).reverse := by
    rw [List.reverse_append]
    simp [List.reverse_cons, List.append_assoc]
  rw [hsplit]
  rw [takeWhile_append_stop (fun c => c != '?')
    (fun c hc => by
      have := encode_ne_question d c (List.mem_reverse.1 hc)
      simp [this])
    (by simp)]
  exact List.reverse_reverse _

/-! ### Data model of the store

The mutable JavaScript objects are modelled by explicit state passing.  Every
operation returns the result (with JavaScript exceptions as `Except.error`)
together with the state as it is left behind, even when the operation throws.
Object identity of artifact records is modelled by a record heap: the store
maps keys to record ids and the heap maps record ids to record contents, so
that several keys aliasing one record object are represented by several keys
mapping to one record id. -/

/-- Error taxonomy of the store (the JavaScript exceptions thrown by
data-store.ts, by constructor rather than by message text). -/
inductive Err where
  | Cancelled : Err
  | WriteConflict : JStr → Err
  | NotFound : JStr → Err
  | DanglingMappingReference : JStr → JStr → Err
deriving DecidableEq, Repr

/-- One entry of a mapping table, matching the source-map library's
MappingItem as consumed by data-store.ts. -/
structure MappingItem where
  generatedLine : Nat
  generatedColumn : Nat
  originalLine : Nat
  originalColumn : Nat
  name : JStr
  source : JStr
deriving DecidableEq, Repr

/-- Structured view of a RawSourceMap: the file it names, the source keys it
references and its mapping table (the VLQ encoding of the external library is
abstracted to the entry list). -/
structure RawSourceMap where
  file : JStr
  sources : List JStr
  mappings : List MappingItem
deriving DecidableEq, Repr

/-- One artifact record: the immutable content together with the eager part
of its metadata (artifact tag) and the identity list. -/
structure Data where
  data : JStr
  artifactType : JStr
  identity : List JStr
deriving DecidableEq, Repr

/-- A data handle: the key together with the record object it references
(the record id in the heap model).  A handle never copies content. -/
structure DataHandle where
  key : JStr
  rid : Nat
deriving DecidableEq, Repr

/-- State of one DataStore: the key counter, the key-to-record-id map and
the record heap (both association lists, newest binding first), the next
fresh record id, and the cancellation token's flag. -/
structure DSState where
  uid : Nat
  store : List (JStr × Nat)
  heap : List (Nat × Data)
  nextRid : Nat
  cancelled : Bool
deriving DecidableEq, Repr

/-- The record reached from a key: the key map composed with the heap. -/
def readRecord (st : DSState) (k : JStr) : Option Data :=
  (st.store.lookup k).bind (fun rid => st.heap.lookup rid)

/-- Model of DataStore.Read: resolve the uri against the in-memory root and
fail with NotFound when the key is unbound. -/
def ReadDS (st : DSState) (uri : JStr) : Except Err DataHandle :=
  let uriR := ResolveUri memRoot uri
  match st.store.lookup uriR with
  | some rid => .ok ⟨uriR, rid⟩
  | none => .error (.NotFound uriR)

/-- Model of DataStore.ReadStrictSync: look the absolute uri up without
resolution and fail when absent. -/
def ReadStrictSync (st : DSState) (absoluteUri : JStr) : Except Err DataHandle :=
  match st.store.lookup absoluteUri with
  | some rid => .ok ⟨absoluteUri, rid⟩
  | none => .error (.NotFound absoluteUri)

/-- Model of DataStore.WriteDataInternal (the explicit-key write): throw
Cancelled if the token is set, throw WriteConflict if the key already holds a
record, otherwise bind the key to a fresh record and read it back. -/
def WriteDataInternal (st : DSState) (uri : JStr) (d : Data) :
    Except Err DataHandle × DSState :=
  if st.cancelled then (.error .Cancelled, st)
  else if (st.store.lookup uri).isSome then (.error (.WriteConflict uri), st)
  else
    let st' : DSState :=
      { st with
          store := (uri, st.nextRid) :: st.store
          heap := (st.nextRid, d) :: st.heap
          nextRid := st.nextRid + 1 }
    (ReadDS st' uri, st')

/-- Model of DataStore.WriteData: allocate a key from the description (the
counter is consumed before the cancellation check inside the internal write)
and write the record.  The source-map factory is accepted but deliberately
not consulted here: the source-map view is lazy (see forceSourceMapView). -/
def WriteData (st : DSState) (description : JStr) (data : JStr)
    (artifact : JStr) (identity : List JStr)
    (sourceMapFactory : Option (DataHandle → RawSourceMap)) :
    Except Err DataHandle × DSState :=
  let uri := createUri st.uid description
  let st1 : DSState := { st with uid := st.uid + 1 }
  WriteDataInternal st1 uri ⟨data, artifact, identity⟩

/-- Model of the forward closure built in DataStore.getDataSink: allocate a
fresh key from the description, alias it to the record object of the input
handle, and read the new key back.  There is no cancellation check on this
path in the source. -/
def forwardData (st : DSState) (description : JStr) (input : DataHandle) :
    Except Err DataHandle × DSState :=
  let uri := createUri st.uid description
  let st1 : DSState := { st with uid := st.uid + 1 }
  match st1.store.lookup input.key with
  | some rid =>
    let st2 : DSState := { st1 with store := (uri, rid) :: st1.store }
    (ReadDS st2 uri, st2)
  | none => (ReadDS st1 uri, st1)

/-- Model of the write closure built in DataStore.getDataSink: delegate to
WriteData, the artifact falling back to the sink default when the argument is
absent or empty (JavaScript truthiness of artifact || defaultArtifact). -/
def sinkWrite (st : DSState) (defaultArtifact : JStr) (description : JStr)
    (data : JStr) (artifact : Option JStr) (identity : List JStr)
    (sourceMapFactory : Option (DataHandle → RawSourceMap)) :
    Except Err DataHandle × DSState :=
  let eff := match artifact with
    | some a => if a = [] then defaultArtifact else a
    | none => defaultArtifact
  WriteData st description data eff identity sourceMapFactory

/-- Body of the lazy source-map view installed by DataStore.WriteData,
evaluated against the store state current at access time: without a factory
the view is an empty source map; with one, the factory runs on the handle of
the written artifact and its map must name (among its sources plus its file)
only keys present in the store — the first absent key fails the view with
DanglingMappingReference, otherwise the factory's map is returned
unchanged. -/
def forceSourceMapView (st : DSState) (uri : JStr) (result : DataHandle)
    (sourceMapFactory : Option (DataHandle → RawSourceMap)) :
    Except Err RawSourceMap :=
  match sourceMapFactory with
  | none => .ok ⟨[], [], []⟩
  | some f =>
    let sourceMap := f result
    let inputFiles := sourceMap.sources ++ [sourceMap.file]
    match inputFiles.find? (fun x => (st.store.lookup x).isNone) with
    | some bad => .error (.DanglingMappingReference uri bad)
    | none => .ok sourceMap

/-! ### Well-formedness and the public mutation steps -/

/-- Well-formedness maintained by the public interface: every record id in
the heap is below the allocator counter, and no key the counter may still
produce is already bound. -/
def WF (st : DSState) : Prop :=
  (∀ p ∈ st.heap, p.1 < st.nextRid) ∧
  (∀ n d, st.uid ≤ n → st.store.lookup (createUri n d) = none)

/-- One mutation through the public interface of the store: a WriteData
(the sink's write delegates to it) or a sink forward. -/
inductive Step : DSState → DSState → Prop where
  | write : ∀ st description data artifact identity factory,
      Step st (WriteData st description data artifact identity factory).2
  | forward : ∀ st description input,
      Step st (forwardData st description input).2

/-- Reachability through any number of public mutations. -/
def Steps : DSState → DSState → Prop :=
  Relation.ReflTransGen Step

/-! ### Association-list lookup helpers -/

theorem lookup_cons_self {α β : Type} [BEq α] [LawfulBEq α] (k : α) (v : β)
    (l : List (α × β)) : ((k, v) :: l).lookup k = some v := by
  simp [List.lookup]

theorem lookup_cons_ne {α β : Type} [BEq α] [LawfulBEq α] {k k2 : α} (v : β)
    (l : List (α × β)) (h : ¬k2 = k) : ((k, v) :: l).lookup k2 = l.lookup k2 := by
  have hb : (k2 == k) = false := by
    simp [beq_eq_false_iff_ne]
    exact h
  rw [List.lookup, hb]

theorem lookup_mem {α β : Type} [BEq α] [LawfulBEq α] {l : List (α × β)} {k : α}
    {v : β} (h : l.lookup k = some v) : (k, v) ∈ l := by
  induction l with
  | nil => simp [List.lookup] at h
  | cons p rest ih =>
    rcases p with ⟨a, b⟩
    rw [List.lookup] at h
    cases hab : k == a with
    | true =>
      rw [hab] at h
      simp only [Option.some.injEq] at h
      have hk : k = a := by
        have := hab
        simpa [beq_iff_eq] using this
      subst hk
      subst h
      exact List.mem_cons_self _ _
    | false =>
      rw [hab] at h
      exact List.mem_cons_of_mem _ (ih h)

/-! ### Preservation of existing bindings by the public interface -/

theorem wf_writeDataInternal {st : DSState} (hwf : WF st) (uri : JStr) (d : Data)
    (huri : ∀ n e, st.uid ≤ n → ¬uri = createUri n e) :
    WF (WriteDataInternal st uri d).2 := by
  unfold WriteDataInternal
  by_cases hc : st.cancelled
  · simpa [hc] using hwf
  · by_cases hocc : (st.store.lookup uri).isSome
    · simpa [hc, hocc] using hwf
    · simp only [hc, hocc, if_false, Bool.false_eq_true]
      constructor
      · intro p hp
        rcases List.mem_cons.1 hp with h1 | h2
        · subst h1; simp
        · have := hwf.1 p h2
          dsimp only
          omega
      · intro n e hn
        dsimp only at hn ⊢
        have hne : ¬createUri n e = uri := fun heq => huri n e hn heq.symm
        rw [lookup_cons_ne _ _ hne]
        exact hwf.2 n e hn

theorem wf_write {st : DSState} (hwf : WF st) (description data artifact : JStr)
    (identity : List JStr) (factory : Option (DataHandle → RawSourceMap)) :
    WF (WriteData st description data artifact identity factory).2 := by
  unfold WriteData
  have hwf1 : WF { st with uid := st.uid + 1 } := by
    refine ⟨hwf.1, fun n e hn => ?_⟩
    dsimp only at hn
    exact hwf.2 n e (by omega)
  refine wf_writeDataInternal hwf1 _ _ (fun n e hn heq => ?_)
  dsimp only at hn
  have := createUri_uid_inj heq
  omega

theorem wf_forward {st : DSState} (hwf : WF st) (description : JStr)
    (input : DataHandle) : WF (forwardData st description input).2 := by
  unfold forwardData
  have hwf1 : WF { st with uid := st.uid + 1 } := by
    refine ⟨hwf.1, fun n e hn => ?_⟩
    dsimp only at hn
    exact hwf.2 n e (by omega)
  cases hlk : ({ st with uid := st.uid + 1 } : DSState).store.lookup input.key with
  | none => simpa [hlk] using hwf1
  | some rid =>
    simp only [hlk]
    refine ⟨hwf1.1, fun n e hn => ?_⟩
    dsimp only at hn ⊢
    have hne : ¬createUri n e = createUri st.uid description := fun heq => by
      have := createUri_uid_inj heq
      omega
    rw [lookup_cons_ne _ _ hne]
    exact hwf.2 n e (by omega)

theorem step_wf {st st' : DSState} (h : Step st st') (hwf : WF st) : WF st' := by
  cases h with
  | write description data artifact identity factory =>
    exact wf_write hwf description data artifact identity factory
  | forward description input => exact wf_forward hwf description input

theorem step_binding {st st' : DSState} (hwf : WF st) (h : Step st st')
    {k : JStr} {rid : Nat} {d : Data} (hs : st.store.lookup k = some rid)
    (hh : st.heap.lookup rid = some d) :
    st'.store.lookup k = some rid ∧ st'.heap.lookup rid = some d := by
  have hridlt : rid < st.nextRid := hwf.1 (rid, d) (lookup_mem hh)
  cases h with
  | write description data artifact identity factory =>
    show ((WriteData st description data artifact identity factory).2.store.lookup k
        = some rid) ∧ _
    unfold WriteData WriteDataInternal
    by_cases hc : st.cancelled
    · simpa [hc] using ⟨hs, hh⟩
    · by_cases hocc :
        (({ st with uid := st.uid + 1 } : DSState).store.lookup
          (createUri st.uid description)).isSome
      · simpa [hc, hocc] using ⟨hs, hh⟩
      · simp only [hc, hocc, if_false, Bool.false_eq_true]
        constructor
        · have hne : ¬k = createUri st.uid description := by
            intro heq
            subst heq
            simp only at hocc
            rw [hs] at hocc
            simp at hocc
          rw [lookup_cons_ne _ _ hne]
          exact hs
        · have hne2 : ¬rid = st.nextRid := by omega
          rw [lookup_cons_ne _ _ hne2]
          exact hh
  | forward description input =>
    show ((forwardData st description input).2.store.lookup k = some rid) ∧ _
    unfold forwardData
    cases hlk : ({ st with uid := st.uid + 1 } : DSState).store.lookup input.key with
    | none => simpa [hlk] using ⟨hs, hh⟩
    | some rid2 =>
      simp only [hlk]
      constructor
      · have hne : ¬k = createUri st.uid description := by
          intro heq
          subst heq
          have := hwf.2 st.uid description (by omega)
          rw [hs] at this
          exact Option.noConfusion this
        rw [lookup_cons_ne _ _ hne]
        exact hs
      · exact hh

/-- Along any sequence of public mutations, well-formedness is preserved and
every existing key-to-record binding survives unchanged. -/
theorem steps_preserve {st st' : DSState} (h : Steps st st') (hwf : WF st) :
    WF st' ∧ ∀ k rid d, st.store.lookup k = some rid →
      st.heap.lookup rid = some d →
      st'.store.lookup k = some rid ∧ st'.heap.lookup rid = some d := by
  induction h with
  | refl => exact ⟨hwf, fun k rid d hs hh => ⟨hs, hh⟩⟩
  | tail hab hbc ih =>
    obtain ⟨hwfb, hpres⟩ := ih
    refine ⟨step_wf hbc hwfb, fun k rid d hs hh => ?_⟩
    obtain ⟨h1, h2⟩ := hpres k rid d hs hh
    exact step_binding hwfb hbc h1 h2

/-! ### Helper facts about successful writes and forwards -/

/-- A successful forward returns the handle of the fresh key bound to the
input's record id, and only conses that binding onto the store. -/
theorem forward_ok {st : DSState} (description : JStr) {input : DataHandle}
    {rid : Nat} (hs : st.store.lookup input.key = some rid) :
    (forwardData st description input).1
      = .ok ⟨createUri st.uid description, rid⟩ ∧
    (forwardData st description input).2.store
      = (createUri st.uid description, rid) :: st.store ∧
    (forwardData st description input).2.heap = st.heap := by
  unfold forwardData
  have hlk : ({ st with uid := st.uid + 1 } : DSState).store.lookup input.key
      = some rid := hs
  simp only [hlk]
  unfold ReadDS
  rw [resolveUri_createUri]
  dsimp only
  rw [lookup_cons_self]
  refine ⟨?_, ?_, ?_⟩ <;> (first | rfl | trivial)

/-- A write into a well-formed, non-cancelled store succeeds with the handle
of the freshly created key bound to the freshly allocated record id. -/
theorem writeData_ok {st : DSState} (hwf : WF st) (hnc : st.cancelled = false)
    (description data artifact : JStr) (identity : List JStr)
    (factory : Option (DataHandle → RawSourceMap)) :
    (WriteData st description data artifact identity factory).1
      = .ok ⟨createUri st.uid description, st.nextRid⟩ ∧
    (WriteData st description data artifact identity factory).2
      = { st with
            uid := st.uid + 1
            store := (createUri st.uid description, st.nextRid) :: st.store
            heap := (st.nextRid, ⟨data, artifact, identity⟩) :: st.heap
            nextRid := st.nextRid + 1 } := by
  unfold WriteData WriteDataInternal
  have hc : ¬({ st with uid := st.uid + 1 } : DSState).cancelled = true := by
    dsimp only
    simp [hnc]
  have hocc : ¬(({ st with uid := st.uid + 1 } : DSState).store.lookup
      (createUri st.uid description)).isSome = true := by
    dsimp only
    rw [hwf.2 st.uid description (by omega)]
    simp
  rw [if_neg hc, if_neg hocc]
  dsimp only
  constructor
  · unfold ReadDS
    rw [resolveUri_createUri]
    dsimp only
    rw [lookup_cons_self]
  · rfl

/-- Shared concrete states for the witnesses. -/
def st0 : DSState := ⟨0, [], [], 0, false⟩

theorem wf_st0 : WF st0 := ⟨by simp [st0], fun n d h => rfl⟩

def dEx : Data := ⟨['f', 'o', 'o'], ['t'], [['x']]⟩

def dEx2 : Data := ⟨['b', 'a', 'r'], ['t'], [['y']]⟩

def keyEx : JStr := createUri 0 ['a']

def stEx : DSState := (WriteData st0 ['a'] ['f', 'o', 'o'] ['t'] [['x']] none).2

theorem wf_stEx : WF stEx := wf_write wf_st0 ['a'] ['f', 'o', 'o'] ['t'] [['x']] none

/-! ### C1: write-once invariant -/

/-- C1: for every key holding a record, a second explicit write to that key
fails with WriteConflict and leaves the state untouched, and after any later
sequence of public mutations reading the key still yields the record of the
first write — content, artifact tag and identity unchanged. -/
theorem c1_write_once (st : DSState) (k : JStr) (rid : Nat) (d d2 : Data)
    (hwf : WF st) (hnc : st.cancelled = false)
    (hs : st.store.lookup k = some rid) (hh : st.heap.lookup rid = some d) :
    (WriteDataInternal st k d2).1 = .error (.WriteConflict k) ∧
    (WriteDataInternal st k d2).2 = st ∧
    ∀ st', Steps st st' → readRecord st' k = some d := by
  refine ⟨?_, ?_, ?_⟩
  · unfold WriteDataInternal
    rw [if_neg (by simp [hnc]), if_pos (by simp [hs])]
  · unfold WriteDataInternal
    rw [if_neg (by simp [hnc]), if_pos (by simp [hs])]
  · intro st' hsteps
    obtain ⟨_, hpres⟩ := steps_preserve hsteps hwf
    obtain ⟨h1, h2⟩ := hpres k rid d hs hh
    unfold readRecord
    rw [h1]
    simpa using h2

/-- Witness for C1 at the concrete store holding one record. -/
theorem c1_write_once_witness :
    (WF stEx ∧ stEx.cancelled = false ∧ stEx.store.lookup keyEx = some 0 ∧
      stEx.heap.lookup 0 = some dEx) ∧
    ((WriteDataInternal stEx keyEx dEx2).1 = .error (.WriteConflict keyEx) ∧
     (WriteDataInternal stEx keyEx dEx2).2 = stEx ∧
     ∀ st', Steps stEx st' → readRecord st' keyEx = some dEx) :=
  ⟨⟨wf_stEx, by decide, by decide, by decide⟩,
   c1_write_once stEx keyEx 0 dEx dEx2 wf_stEx (by decide) (by decide) (by decide)⟩

/-! ### C5: forwarding aliases the record -/

/-- C5: forwarding a handle that is present in the store returns a handle for
a fresh key bound to the very same record id; the heap is unchanged (no copy
of any record is made), both keys look up the same record id, and reading
either key yields the identical record — content, identity and every
record-derived view coincide. -/
theorem c5_forward_aliases (st : DSState) (description : JStr) (A : DataHandle)
    (rid : Nat) (d : Data) (hwf : WF st)
    (hs : st.store.lookup A.key = some rid) (hh : st.heap.lookup rid = some d) :
    (forwardData st description A).1
      = .ok ⟨createUri st.uid description, rid⟩ ∧
    (forwardData st description A).2.heap = st.heap ∧
    (forwardData st description A).2.store.lookup (createUri st.uid description)
      = some rid ∧
    (forwardData st description A).2.store.lookup A.key = some rid ∧
    readRecord (forwardData st description A).2 (createUri st.uid description)
      = some d ∧
    readRecord (forwardData st description A).2 A.key = some d := by
  obtain ⟨hres, hstore, hheap⟩ := forward_ok description hs
  have hne : ¬A.key = createUri st.uid description := by
    intro heq
    have := hwf.2 st.uid description (by omega)
    rw [heq, this] at hs
    exact Option.noConfusion hs
  have hlkNew : (forwardData st description A).2.store.lookup
      (createUri st.uid description) = some rid := by
    rw [hstore]
    exact lookup_cons_self _ _ _
  have hlkA : (forwardData st description A).2.store.lookup A.key = some rid := by
    rw [hstore, lookup_cons_ne _ _ hne]
    exact hs
  refine ⟨hres, hheap, hlkNew, hlkA, ?_, ?_⟩
  · unfold readRecord
    rw [hlkNew, hheap]
    simpa using hh
  · unfold readRecord
    rw [hlkA, hheap]
    simpa using hh

/-- Witness for C5 at the concrete store holding one record. -/
theorem c5_forward_aliases_witness :
    (WF stEx ∧ stEx.store.lookup keyEx = some 0 ∧ stEx.heap.lookup 0 = some dEx) ∧
    ((forwardData stEx ['b'] ⟨keyEx, 0⟩).1 = .ok ⟨createUri 1 ['b'], 0⟩ ∧
     (forwardData stEx ['b'] ⟨keyEx, 0⟩).2.heap = stEx.heap ∧
     (forwardData stEx ['b'] ⟨keyEx, 0⟩).2.store.lookup (createUri 1 ['b']) = some 0 ∧
     (forwardData stEx ['b'] ⟨keyEx, 0⟩).2.store.lookup keyEx = some 0 ∧
     readRecord (forwardData stEx ['b'] ⟨keyEx, 0⟩).2 (createUri 1 ['b']) = some dEx ∧
     readRecord (forwardData stEx ['b'] ⟨keyEx, 0⟩).2 keyEx = some dEx) :=
  ⟨⟨wf_stEx, by decide, by decide⟩,
   c5_forward_aliases stEx ['b'] ⟨keyEx, 0⟩ 0 dEx wf_stEx (by decide) (by decide)⟩

/-! ### C3: cancellation (corrected)

The claim extends the cancellation guarantee to the sink's forward, but the
forward closure in DataStore.getDataSink performs no cancellation check: with
the flag set it still allocates a key and mutates the store.  The amended
statement below covers exactly what the code does: WriteData and the sink's
write fail fast with Cancelled and leave store and heap untouched, while
forward ignores the flag. -/

instance : DecidableEq (Except Err DataHandle) := fun a b =>
  match a, b with
  | .ok x, .ok y =>
    if h : x = y then isTrue (by rw [h]) else isFalse (fun hc => h (by injection hc))
  | .error x, .error y =>
    if h : x = y then isTrue (by rw [h]) else isFalse (fun hc => h (by injection hc))
  | .ok _, .error _ => isFalse (fun hc => Except.noConfusion hc)
  | .error _, .ok _ => isFalse (fun hc => Except.noConfusion hc)

/-- Concrete cancelled store holding one record, for the C3 counterexample
and witness. -/
def stC : DSState := ⟨1, [(keyEx, 0)], [(0, dEx)], 1, true⟩

/-- C3 counterexample: with the cancellation flag set at operation start, the
sink's forward does not fail with Cancelled — it succeeds and mutates the
store, contradicting the claim for the forward operation. -/
theorem c3_cancellation_counterexample :
    stC.cancelled = true ∧
    (forwardData stC ['b'] ⟨keyEx, 0⟩).1 = .ok ⟨createUri 1 ['b'], 0⟩ ∧
    ¬(forwardData stC ['b'] ⟨keyEx, 0⟩).2.store = stC.store := by decide

/-- C3 (amended): if the cancellation flag is set when the operation starts,
WriteData and the sink's write fail with Cancelled and leave the store and
heap unchanged (no key added, no record replaced); the sink's forward, which
performs no cancellation check in the source, still succeeds whenever its
input key is bound and adds the fresh alias key. -/
theorem c3_cancellation (st : DSState) (hc : st.cancelled = true) :
    (∀ description data artifact identity factory,
      (WriteData st description data artifact identity factory).1
        = .error .Cancelled ∧
      (WriteData st description data artifact identity factory).2.store
        = st.store ∧
      (WriteData st description data artifact identity factory).2.heap
        = st.heap) ∧
    (∀ defaultArtifact description data artifact identity factory,
      (sinkWrite st defaultArtifact description data artifact identity
          factory).1 = .error .Cancelled ∧
      (sinkWrite st defaultArtifact description data artifact identity
          factory).2.store = st.store ∧
      (sinkWrite st defaultArtifact description data artifact identity
          factory).2.heap = st.heap) ∧
    (∀ description input rid, st.store.lookup input.key = some rid →
      (forwardData st description input).1
        = .ok ⟨createUri st.uid description, rid⟩ ∧
      (forwardData st description input).2.store
        = (createUri st.uid description, rid) :: st.store) := by
  have hwd : ∀ (description data artifact : JStr) (identity : List JStr)
      (factory : Option (DataHandle → RawSourceMap)),
      (WriteData st description data artifact identity factory).1
        = .error .Cancelled ∧
      (WriteData st description data artifact identity factory).2.store
        = st.store ∧
      (WriteData st description data artifact identity factory).2.heap
        = st.heap := by
    intro description data artifact identity factory
    unfold WriteData WriteDataInternal
    have hc1 : ({ st with uid := st.uid + 1 } : DSState).cancelled = true := hc
    rw [if_pos hc1]
    exact ⟨rfl, rfl, rfl⟩
  refine ⟨hwd, ?_, ?_⟩
  · intro defaultArtifact description data artifact identity factory
    unfold sinkWrite
    exact hwd description data _ identity factory
  · intro description input rid hs
    obtain ⟨h1, h2, _⟩ := forward_ok description hs
    exact ⟨h1, h2⟩

/-- Witness for the amended C3 at the concrete cancelled store. -/
theorem c3_cancellation_witness :
    stC.cancelled = true ∧
    ((WriteData stC ['c'] [] [] [] none).1 = .error .Cancelled ∧
     (WriteData stC ['c'] [] [] [] none).2.store = stC.store ∧
     (WriteData stC ['c'] [] [] [] none).2.heap = stC.heap) ∧
    ((sinkWrite stC ['o'] ['c'] [] none [] none).1 = .error .Cancelled) ∧
    ((forwardData stC ['b'] ⟨keyEx, 0⟩).1 = .ok ⟨createUri 1 ['b'], 0⟩) := by
  have h := c3_cancellation stC (by decide)
  exact ⟨by decide, h.1 ['c'] [] [] [] none,
    (h.2.1 ['o'] ['c'] [] none [] none).1,
    (h.2.2 ['b'] ⟨keyEx, 0⟩ 0 (by decide)).1⟩

/-! ### C4: dangling mapping reference is lazy -/

/-- C4: a WriteData call with a source-map factory always succeeds and
returns the handle of the fresh key — the write result and the written state
do not depend on the factory at all, which is the shape of the laziness: the
factory is not consulted at write time.  The factory runs only when the
source-map view is forced: forcing against a store in which every key named
by the factory's map (its sources plus its file) is present returns the
factory's map unchanged, while forcing against a store missing one of the
named keys fails with DanglingMappingReference naming the first missing
key. -/
theorem c4_lazy_dangling (st : DSState) (description data artifact : JStr)
    (identity : List JStr) (factory : DataHandle → RawSourceMap)
    (hwf : WF st) (hnc : st.cancelled = false) :
    (∀ g : Option (DataHandle → RawSourceMap),
      (WriteData st description data artifact identity g).1
        = .ok ⟨createUri st.uid description, st.nextRid⟩ ∧
      (WriteData st description data artifact identity g).2
        = (WriteData st description data artifact identity none).2) ∧
    (∀ (st2 : DSState) (h : DataHandle),
      (∀ x ∈ (factory h).sources ++ [(factory h).file],
          (st2.store.lookup x).isSome) →
      forceSourceMapView st2 (createUri st.uid description) h (some factory)
        = .ok (factory h)) ∧
    (∀ (st2 : DSState) (h : DataHandle) (x : JStr),
      x ∈ (factory h).sources ++ [(factory h).file] →
      st2.store.lookup x = none →
      ∃ bad ∈ (factory h).sources ++ [(factory h).file],
        st2.store.lookup bad = none ∧
        forceSourceMapView st2 (createUri st.uid description) h (some factory)
          = .error (.DanglingMappingReference (createUri st.uid description)
              bad)) := by
  refine ⟨?_, ?_, ?_⟩
  · intro g
    exact ⟨(writeData_ok hwf hnc description data artifact identity g).1, rfl⟩
  · intro st2 h hall
    simp only [forceSourceMapView]
    have hfind : ((factory h).sources ++ [(factory h).file]).find?
        (fun x => (st2.store.lookup x).isNone) = none := by
      rw [List.find?_eq_none]
      intro x hx
      have h2 := hall x hx
      cases hlx : st2.store.lookup x with
      | none => rw [hlx] at h2; simp at h2
      | some v => simp [hlx]
    rw [hfind]
  · intro st2 h x hx hnone
    simp only [forceSourceMapView]
    cases hfind : ((factory h).sources ++ [(factory h).file]).find?
        (fun y => (st2.store.lookup y).isNone) with
    | none =>
      rw [List.find?_eq_none] at hfind
      have h3 := hfind x hx
      rw [hnone] at h3
      simp at h3
    | some bad =>
      refine ⟨bad, List.mem_of_find?_eq_some hfind, ?_, ?_⟩
      · have := List.find?_some hfind
        simpa [Option.isNone_iff_eq_none] using this
      · rfl

/-- Factory used by the C4 witness: a map naming the written key itself as
its file. -/
def fEx : DataHandle → RawSourceMap := fun h => ⟨h.key, [], []⟩

/-- Witness for C4 at the empty store: the write succeeds regardless of the
factory; forcing the view after the write succeeds with the factory map
unchanged; forcing it against the empty store (where the named key is
absent) fails with DanglingMappingReference. -/
theorem c4_lazy_dangling_witness :
    (WF st0 ∧ st0.cancelled = false) ∧
    ((WriteData st0 ['a'] [] [] [] (some fEx)).1
      = .ok ⟨createUri 0 ['a'], 0⟩) ∧
    (forceSourceMapView stEx (createUri 0 ['a']) ⟨keyEx, 0⟩ (some fEx)
      = .ok (fEx ⟨keyEx, 0⟩)) ∧
    (∃ bad ∈ (fEx ⟨keyEx, 0⟩).sources ++ [(fEx ⟨keyEx, 0⟩).file],
      st0.store.lookup bad = none ∧
      forceSourceMapView st0 (createUri 0 ['a']) ⟨keyEx, 0⟩ (some fEx)
        = .error (.DanglingMappingReference (createUri 0 ['a']) bad)) := by
  have h := c4_lazy_dangling st0 ['a'] [] [] [] fEx wf_st0 (by decide)
  refine ⟨⟨wf_st0, by decide⟩, (h.1 (some fEx)).1, ?_, ?_⟩
  · exact h.2.1 stEx ⟨keyEx, 0⟩ (by decide)
  · exact h.2.2 st0 ⟨keyEx, 0⟩ keyEx (by decide) (by decide)

/-! ### C9: description round trip -/

theorem description_createUri (uid : Nat) (d : JStr) :
    Description (createUri uid d) = some d := by
  unfold Description
  rw [afterLastQ_createUri]
  exact decode_encode d

/-- C9: the handle returned by WriteData carries the key formed from the
in-memory root, the fresh counter, a question mark and the percent-encoded
description; the text after the last question mark of that key is exactly the
encoded description, and decoding it recovers the description, so the
Description getter returns the original description unchanged. -/
theorem c9_description_roundtrip (st : DSState) (description data artifact : JStr)
    (identity : List JStr) (factory : Option (DataHandle → RawSourceMap))
    (h : DataHandle)
    (hok : (WriteData st description data artifact identity factory).1 = .ok h) :
    h.key = memRoot ++ natRepr st.uid ++ '?' :: encodeURIComponent description ∧
    afterLastQ h.key = encodeURIComponent description ∧
    Description h.key = some description := by
  have hkey : h.key = createUri st.uid description := by
    unfold WriteData WriteDataInternal at hok
    by_cases hc : ({ st with uid := st.uid + 1 } : DSState).cancelled = true
    · rw [if_pos hc] at hok
      exact absurd hok (by simp)
    · rw [if_neg hc] at hok
      by_cases hocc : (({ st with uid := st.uid + 1 } : DSState).store.lookup
          (createUri st.uid description)).isSome = true
      · rw [if_pos hocc] at hok
        exact absurd hok (by simp)
      · rw [if_neg hocc] at hok
        dsimp only at hok
        unfold ReadDS at hok
        rw [resolveUri_createUri] at hok
        dsimp only at hok
        rw [lookup_cons_self] at hok
        simp only [Except.ok.injEq] at hok
        rw [← hok]
  rw [hkey]
  exact ⟨createUri_eq st.uid description, afterLastQ_createUri st.uid description,
    description_createUri st.uid description⟩

/-- Witness for C9 at the empty store with description a. -/
theorem c9_description_roundtrip_witness :
    ((WriteData st0 ['a'] [] [] [] none).1 = .ok ⟨createUri 0 ['a'], 0⟩) ∧
    ((⟨createUri 0 ['a'], 0⟩ : DataHandle).key
        = memRoot ++ natRepr 0 ++ '?' :: encodeURIComponent ['a'] ∧
      afterLastQ (⟨createUri 0 ['a'], 0⟩ : DataHandle).key
        = encodeURIComponent ['a'] ∧
      Description (⟨createUri 0 ['a'], 0⟩ : DataHandle).key = some ['a']) :=
  ⟨by decide,
   c9_description_roundtrip st0 ['a'] [] [] [] none ⟨createUri 0 ['a'], 0⟩
     (by decide)⟩

/-! ### C2: single-hop blame resolution (DataHandle.Blame) -/

/-- A position (line and column) as consumed by DataHandle.Blame. -/
structure Position where
  line : Nat
  column : Nat
deriving DecidableEq, Repr

/-- A mapped position as produced by DataHandle.Blame. -/
structure MappedPosition where
  column : Nat
  line : Nat
  name : JStr
  source : JStr
deriving DecidableEq, Repr

/-- Pad the per-line bucket list so that the given line index exists (the
while loop of the eachMapping callback pushing empty rows). -/
def padTo (acc : List (List MappingItem)) (n : Nat) : List (List MappingItem) :=
  acc ++ List.replicate (n + 1 - acc.length) []

/-- Push one mapping onto the bucket at the given line index. -/
def appendAt : List (List MappingItem) → Nat → MappingItem → List (List MappingItem)
  | [], _, _ => []
  | row :: rows, 0, m => (row ++ [m]) :: rows
  | row :: rows, n + 1, m => row :: appendAt rows n m

/-- Model of the sourceMapEachMappingByLine view built in DataStore.WriteData:
mapping-table entries bucketed by generated line, in table order. -/
def eachMappingByLine (table : List MappingItem) : List (List MappingItem) :=
  table.foldl
    (fun acc m => appendAt (padTo acc m.generatedLine) m.generatedLine m) []

/-- Model of DataHandle.Blame: filter the bucket of the requested generated
line down to the entries at a generated column at most the requested column,
reduce to the maximal such column (seed 0), and map every entry at that
maximal column to its original position shifted by the column delta. -/
def DataHandle.Blame (sourceMapEachMappingByLine : List (List MappingItem))
    (position : Position) : List MappedPosition :=
  let sameLineResults := List.filter
    (fun mapping => mapping.generatedColumn ≤ position.column)
    (sourceMapEachMappingByLine.getD position.line [])
  let maxColumn := sameLineResults.foldl (fun c m => max c m.generatedColumn) 0
  let columnDelta := position.column - maxColumn
  List.map
    (fun m => (⟨m.originalColumn + columnDelta, m.originalLine, m.name,
      m.source⟩ : MappedPosition))
    (List.filter (fun m => m.generatedColumn = maxColumn) sameLineResults)

/-- The claim's candidate set: the mapping-table entries on the requested
generated line whose generated column is at most the requested column. -/
def blameCandidates (table : List MappingItem) (position : Position) :
    List MappingItem :=
  table.filter
    (fun m => m.generatedLine = position.line
      ∧ m.generatedColumn ≤ position.column)

/-- The claim's result shape: an entry shifted by the column delta. -/
def shiftEntry (delta : Nat) (m : MappingItem) : MappedPosition :=
  ⟨m.originalColumn + delta, m.originalLine, m.name, m.source⟩

theorem padTo_length (acc : List (List MappingItem)) (n : Nat) :
    n < (padTo acc n).length := by
  unfold padTo
  rw [List.length_append, List.length_replicate]
  omega

theorem padTo_getD (acc : List (List MappingItem)) (n l : Nat) :
    (padTo acc n).getD l [] = acc.getD l [] := by
  unfold padTo
  rw [List.getD_eq_getElem?_getD, List.getD_eq_getElem?_getD,
    List.getElem?_append]
  by_cases h : l < acc.length
  · rw [if_pos h]
  · rw [if_neg h]
    rw [List.getElem?_replicate]
    have hacc : acc[l]? = none := List.getElem?_eq_none (by omega)
    rw [hacc]
    by_cases h2 : l - acc.length < n + 1 - acc.length
    · simp [h2]
    · simp [h2]

theorem appendAt_getD :
    ∀ (acc : List (List MappingItem)) (n : Nat), n < acc.length →
      ∀ (m : MappingItem) (l : Nat),
        (appendAt acc n m).getD l []
          = if n = l then acc.getD l [] ++ [m] else acc.getD l [] := by
  intro acc
  induction acc with
  | nil => intro n hn; simp at hn
  | cons row rows ih =>
    intro n hn m l
    cases n with
    | zero =>
      cases l with
      | zero => simp [appendAt]
      | succ l2 => simp [appendAt]
    | succ n2 =>
      cases l with
      | zero => simp [appendAt]
      | succ l2 =>
        simp only [appendAt, List.getD_cons_succ]
        rw [ih n2 (by simpa using hn) m l2]
        by_cases h : n2 = l2
        · rw [if_pos h, if_pos (by omega)]
        · rw [if_neg h, if_neg (by omega)]

theorem eachMappingByLine_aux (t : List MappingItem) :
    ∀ (acc : List (List MappingItem)) (l : Nat),
      (t.foldl (fun acc m => appendAt (padTo acc m.generatedLine)
          m.generatedLine m) acc).getD l []
        = acc.getD l [] ++ t.filter (fun m => m.generatedLine = l) := by
  induction t with
  | nil => intro acc l; simp
  | cons m ms ih =>
    intro acc l
    simp only [List.foldl_cons, List.filter_cons]
    rw [ih]
    rw [appendAt_getD _ _ (padTo_length acc m.generatedLine) m l, padTo_getD]
    by_cases hgl : m.generatedLine = l
    · rw [if_pos hgl]
      simp [hgl]
    · rw [if_neg hgl]
      simp [hgl]

/-- The bucket of a line holds exactly the table entries on that generated
line, in table order. -/
theorem eachMappingByLine_getD (t : List MappingItem) (l : Nat) :
    (eachMappingByLine t).getD l []
      = t.filter (fun m => m.generatedLine = l) := by
  unfold eachMappingByLine
  rw [eachMappingByLine_aux]
  simp

theorem foldl_maxcol_ub : ∀ (l : List MappingItem) (a : Nat),
    (∀ m ∈ l, m.generatedColumn
        ≤ l.foldl (fun c m => max c m.generatedColumn) a) ∧
    a ≤ l.foldl (fun c m => max c m.generatedColumn) a := by
  intro l
  induction l with
  | nil => intro a; simp
  | cons n ms ih =>
    intro a
    simp only [List.foldl_cons]
    obtain ⟨h1, h2⟩ := ih (max a n.generatedColumn)
    refine ⟨?_, le_trans (le_max_left a n.generatedColumn) h2⟩
    intro x hx
    rcases List.mem_cons.1 hx with h | h
    · subst h
      exact le_trans (le_max_right a x.generatedColumn) h2
    · exact h1 x h

theorem foldl_maxcol_attained : ∀ (l : List MappingItem) (a : Nat),
    l.foldl (fun c m => max c m.generatedColumn) a = a ∨
    ∃ m ∈ l, m.generatedColumn
      = l.foldl (fun c m => max c m.generatedColumn) a := by
  intro l
  induction l with
  | nil => intro a; simp
  | cons n ms ih =>
    intro a
    simp only [List.foldl_cons]
    rcases ih (max a n.generatedColumn) with h | h
    · rw [h]
      rcases Nat.le_total a n.generatedColumn with hle | hle
      · right
        refine ⟨n, List.mem_cons_self n ms, ?_⟩
        rw [Nat.max_eq_right hle]
      · left
        rw [Nat.max_eq_left hle]
    · right
      obtain ⟨m, hm, hmc⟩ := h
      exact ⟨m, List.mem_cons_of_mem n hm, hmc⟩

/-- The line bucket filtered by column equals the claim's candidate set. -/
theorem sameLine_eq_candidates (table : List MappingItem) (position : Position) :
    List.filter (fun mapping => mapping.generatedColumn ≤ position.column)
      (List.getD (eachMappingByLine table) position.line [])
      = blameCandidates table position := by
  rw [eachMappingByLine_getD, List.filter_filter]
  unfold blameCandidates
  congr 1
  funext m
  simp only [Bool.decide_and]
  rw [Bool.and_comm]

/-- C2: DataHandle.Blame returns exactly one result per mapping-table entry
on the requested generated line with generatedColumn at most the requested
column and equal to the maximal such column, each result carrying the
original line, the original column shifted by the column delta, the name and
the source; ties at the maximal column each yield a result with the same
delta (fan-out), and when no entry on the line has generatedColumn at most
the requested column the result is empty. -/
theorem c2_blame_single_hop (table : List MappingItem) (position : Position) :
    (blameCandidates table position = [] →
      DataHandle.Blame (eachMappingByLine table) position = []) ∧
    (blameCandidates table position ≠ [] →
      ∃ M, (∃ q ∈ blameCandidates table position, q.generatedColumn = M) ∧
        (∀ q ∈ blameCandidates table position, q.generatedColumn ≤ M) ∧
        DataHandle.Blame (eachMappingByLine table) position
          = List.map (shiftEntry (position.column - M))
              (List.filter (fun m => m.generatedColumn = M)
                (blameCandidates table position))) := by
  constructor
  · intro hempty
    unfold DataHandle.Blame
    rw [sameLine_eq_candidates, hempty]
    simp
  · intro hne
    refine ⟨(blameCandidates table position).foldl
        (fun c m => max c m.generatedColumn) 0, ?_, ?_, ?_⟩
    · rcases foldl_maxcol_attained (blameCandidates table position) 0 with h | h
      · obtain ⟨q, hq⟩ := List.exists_mem_of_ne_nil _ hne
        refine ⟨q, hq, ?_⟩
        have hub := (foldl_maxcol_ub (blameCandidates table position) 0).1 q hq
        rw [h]
        rw [h] at hub
        omega
      · exact h
    · exact (foldl_maxcol_ub (blameCandidates table position) 0).1
    · unfold DataHandle.Blame
      rw [sameLine_eq_candidates]
      rfl

/-- Spec example table for C2: one entry with generated position (0,5) and
original position (0,0). -/
def tableEx : List MappingItem := [⟨0, 5, 0, 0, ['n'], ['A']⟩]

/-- Witness for C2 at the spec's concrete single-hop example: querying (0,7)
against the one-entry table has a nonempty candidate set, and the theorem
yields the maximal column and the shifted blame result (delta two applied to
original column zero). -/
theorem c2_blame_single_hop_witness :
    (blameCandidates tableEx ⟨0, 7⟩ ≠ []) ∧
    (∃ M, (∃ q ∈ blameCandidates tableEx ⟨0, 7⟩, q.generatedColumn = M) ∧
      (∀ q ∈ blameCandidates tableEx ⟨0, 7⟩, q.generatedColumn ≤ M) ∧
      DataHandle.Blame (eachMappingByLine tableEx) ⟨0, 7⟩
        = List.map (shiftEntry (7 - M))
            (List.filter (fun m => m.generatedColumn = M)
              (blameCandidates tableEx ⟨0, 7⟩))) :=
  ⟨by decide, (c2_blame_single_hop tableEx ⟨0, 7⟩).2 (by decide)⟩

/-! ### C8: flattened (input) mapping table -/

/-- A blame-tree node payload: source key, position and symbolic name. -/
structure BlameNode where
  source : JStr
  line : Nat
  column : Nat
  name : JStr
deriving DecidableEq, Repr

/-- A blame tree: a node with zero or more children one hop closer to the
origin; a node with no children is terminal. -/
inductive BlameTree where
  | node : BlameNode → List BlameTree → BlameTree

/-- The payload of the root node. -/
def BlameTree.root : BlameTree → BlameNode
  | .node n _ => n

/-- Modelled from the spec: BlameTree.Create of the repository's
source-map/blaming module is not under src/.  Per spec section 4.4, blame
builds a node for the queried key and position and recursively resolves each
single-hop result (DataHandle.Blame against the key's per-line mapping
index) one hop closer to the origin; a position that resolves to nothing is
terminal.  The unguarded recursion of the source is presented with explicit
fuel, and every claim about it is fuel-parametric. -/
def blameTree (tables : JStr → List MappingItem) : Nat → BlameNode → BlameTree
  | 0, nd => .node nd []
  | fuel + 1, nd =>
    let rs := DataHandle.Blame (eachMappingByLine (tables nd.source))
      ⟨nd.line, nd.column⟩
    .node nd (rs.map
      (fun r => blameTree tables fuel ⟨r.source, r.line, r.column, r.name⟩))

mutual

/-- Modelled from the spec: BlameTree.BlameLeafs is not under src/.  The
terminal nodes of the tree in depth-first, left-to-right order. -/
def BlameTree.leaves : BlameTree → List BlameNode
  | .node n [] => [n]
  | .node _ (c :: cs) => BlameTree.leaves c ++ leavesList cs

/-- Leaves of a forest, left to right. -/
def leavesList : List BlameTree → List BlameNode
  | [] => []
  | c :: cs => BlameTree.leaves c ++ leavesList cs

end

theorem blameTree_root (tables : JStr → List MappingItem) (fuel : Nat)
    (nd : BlameNode) : (blameTree tables fuel nd).root = nd := by
  cases fuel <;> rfl

/-- Total wrapper for the Description getter as used during flattening (the
real getter would throw on a malformed key; every key the store creates
decodes successfully). -/
def DescriptionD (key : JStr) : JStr :=
  (decodeURIComponent (afterLastQ key)).getD []

/-- The symbolic name given to a blame root node (the JSON-stringified
position in the source is abstracted to a constant tag, which never reaches
a flattened entry because entries take only the root's position). -/
def blameRootName : JStr := ['b', 'l', 'a', 'm', 'e', 'R', 'o', 'o', 't']

/-- One entry of the flattened (input) mapping table: the leaf's name, the
friendly description of the leaf's source key, the generated position and
the original (leaf) position. -/
structure FlatEntry where
  name : JStr
  source : JStr
  generated : Position
  original : Position
deriving DecidableEq, Repr

/-- Model of DataStore.CreateInputSourceMapFor (Compile and the source-map
generator of the external library are abstracted to the entry list they are
fed, per the spec's compile description): collect every generated position of
the artifact's own mapping table, blame each one, and push one entry per
blame leaf carrying the leaf's name, the friendly description of the leaf's
source key, the blame root's position and the leaf's position. -/
def CreateInputSourceMapFor (tables : JStr → List MappingItem) (fuel : Nat)
    (absoluteUri : JStr) : List FlatEntry :=
  let table := tables absoluteUri
  let targetPositions := table.foldl
    (fun acc m => acc ++ [(⟨m.generatedLine, m.generatedColumn⟩ : Position)]) []
  targetPositions.foldl (fun mappings targetPosition =>
    let t := blameTree tables fuel
      ⟨absoluteUri, targetPosition.line, targetPosition.column, blameRootName⟩
    let inputPositions := t.leaves
    inputPositions.foldl (fun acc inputPosition =>
      acc ++ [(⟨inputPosition.name, DescriptionD inputPosition.source,
        ⟨t.root.line, t.root.column⟩,
        ⟨inputPosition.line, inputPosition.column⟩⟩ : FlatEntry)]) mappings)
    []

theorem foldl_push_append {α β : Type} (f : α → β) :
    ∀ (l : List α) (acc : List β),
      l.foldl (fun a x => a ++ [f x]) acc = acc ++ l.map f := by
  intro l
  induction l with
  | nil => intro acc; simp
  | cons x xs ih =>
    intro acc
    simp only [List.foldl_cons, List.map_cons]
    rw [ih]
    simp

theorem foldl_append_flatMap {α β : Type} (g : α → List β) :
    ∀ (l : List α) (acc : List β),
      l.foldl (fun a x => a ++ g x) acc = acc ++ l.flatMap g := by
  intro l
  induction l with
  | nil => intro acc; simp
  | cons x xs ih =>
    intro acc
    simp only [List.foldl_cons, List.flatMap_cons]
    rw [ih]
    simp

/-- C8: the flattened (input) source map contains, for every entry of the
artifact's own mapping table, exactly one flattened entry per blame leaf of
the blame tree rooted at that entry's generated position; each flattened
entry carries the leaf's name, the friendly description of the leaf's source
key (never the synthetic store key itself), the entry's generated position,
and the leaf's position. -/
theorem c8_flattened_mapping_table (tables : JStr → List MappingItem)
    (fuel : Nat) (uri : JStr) :
    CreateInputSourceMapFor tables fuel uri
      = (tables uri).flatMap (fun e =>
          (blameTree tables fuel ⟨uri, e.generatedLine, e.generatedColumn,
              blameRootName⟩).leaves.map (fun leaf =>
            ⟨leaf.name, DescriptionD leaf.source,
              ⟨e.generatedLine, e.generatedColumn⟩,
              ⟨leaf.line, leaf.column⟩⟩)) := by
  simp only [CreateInputSourceMapFor]
  rw [foldl_push_append]
  simp only [List.nil_append]
  have hinner : ∀ (tp : Position) (mappings : List FlatEntry),
      (blameTree tables fuel ⟨uri, tp.line, tp.column, blameRootName⟩).leaves.foldl
        (fun acc inputPosition =>
          acc ++ [(⟨inputPosition.name, DescriptionD inputPosition.source,
            ⟨(blameTree tables fuel ⟨uri, tp.line, tp.column,
                blameRootName⟩).root.line,
              (blameTree tables fuel ⟨uri, tp.line, tp.column,
                blameRootName⟩).root.column⟩,
            ⟨inputPosition.line, inputPosition.column⟩⟩ : FlatEntry)]) mappings
      = mappings
        ++ (blameTree tables fuel ⟨uri, tp.line, tp.column,
            blameRootName⟩).leaves.map (fun leaf =>
          ⟨leaf.name, DescriptionD leaf.source, ⟨tp.line, tp.column⟩,
            ⟨leaf.line, leaf.column⟩⟩) := by
    intro tp mappings
    rw [foldl_push_append]
    rw [blameTree_root]
  calc ((tables uri).map
        (fun m => (⟨m.generatedLine, m.generatedColumn⟩ : Position))).foldl
          (fun mappings targetPosition =>
            (blameTree tables fuel ⟨uri, targetPosition.line,
              targetPosition.column, blameRootName⟩).leaves.foldl
              (fun acc inputPosition =>
                acc ++ [(⟨inputPosition.name,
                  DescriptionD inputPosition.source,
                  ⟨(blameTree tables fuel ⟨uri, targetPosition.line,
                      targetPosition.column, blameRootName⟩).root.line,
                    (blameTree tables fuel ⟨uri, targetPosition.line,
                      targetPosition.column, blameRootName⟩).root.column⟩,
                  ⟨inputPosition.line, inputPosition.column⟩⟩ : FlatEntry)])
              mappings) []
      = ((tables uri).map
          (fun m => (⟨m.generatedLine, m.generatedColumn⟩ : Position))).foldl
            (fun mappings tp =>
              mappings ++ (blameTree tables fuel ⟨uri, tp.line, tp.column,
                  blameRootName⟩).leaves.map (fun leaf =>
                ⟨leaf.name, DescriptionD leaf.source, ⟨tp.line, tp.column⟩,
                  ⟨leaf.line, leaf.column⟩⟩)) [] := by
        congr 1
        funext mappings tp
        exact hinner tp mappings
    _ = _ := by
        rw [foldl_append_flatMap]
        rw [List.nil_append, List.flatMap_map]

/-! ### Read-through data source (C6, C7, C10)

JavaScript promises are modelled by slots: the synchronous cache maps each
uri to a slot id (the promise object's identity), and a slot is pending until
its asynchronous body resolves it.  Run-to-completion semantics make the
synchronous prefix of Read atomic; the asynchronous body of a call runs
later.  C6's scenario interleaves the synchronous prefixes of two calls
before the first call's body. -/

/-- Modelled from the spec: ParentFolderUri of the repository uri library is
not under src/.  Per the spec's placeholder-substitution property, the
parent location of scheme://dir/file.ext is scheme://dir — everything
before the last slash (empty when there is none, matching the fallback to
the empty string at the call site). -/
def ParentFolderUri (uri : JStr) : JStr :=
  ((uri.reverse.dropWhile (fun c => c != '/')).drop 1).reverse

/-- The folder-placeholder token substituted by the read-through source. -/
def thisFolderToken : JStr :=
  ['$', '(', 't', 'h', 'i', 's', '-', 'f', 'o', 'l', 'd', 'e', 'r', ')']

/-- Fuel-bounded body of the global token replacement (the regex replace
with the global flag: leftmost occurrences, non-overlapping). -/
def replaceTokenAux (repl : JStr) : Nat → JStr → JStr
  | 0, s => s
  | fuel + 1, s =>
    match s with
    | [] => []
    | c :: rest =>
      if prefixSeq thisFolderToken s then
        repl ++ replaceTokenAux repl fuel (s.drop thisFolderToken.length)
      else c :: replaceTokenAux repl fuel rest

/-- Replace every occurrence of the folder-placeholder token. -/
def replaceThisFolder (repl s : JStr) : JStr :=
  replaceTokenAux repl s.length s

/-- The input-file artifact tag. -/
def inputFileTag : JStr := ['i', 'n', 'p', 'u', 't', '-', 'f', 'i', 'l', 'e']

/-- One read-through cache slot (promise): pending until its body resolves
it, resolved with the outcome (a handle, or null when the resource yielded
no content), or failed when the body threw. -/
inductive Slot where
  | pending : Slot
  | resolved : Option DataHandle → Slot
  | failed : Slot
deriving DecidableEq, Repr

/-- State of one ReadThroughDataSource together with its backing store: the
uris resolved so far (Enum, in first-resolution order), the synchronous
promise cache, the slot table, the next slot id, and the DataStore state. -/
structure RTState where
  ds : DSState
  uris : List JStr
  cache : List (JStr × Nat)
  slots : List (Nat × Slot)
  nextSlot : Nat
deriving DecidableEq, Repr

/-- Overwrite one slot. -/
def setSlot (slots : List (Nat × Slot)) (sid : Nat) (v : Slot) :
    List (Nat × Slot) :=
  slots.map (fun p => if p.1 = sid then (p.1, v) else p)

/-- The resolved value of a slot, when resolved. -/
def slotValue (slots : List (Nat × Slot)) (sid : Nat) :
    Option (Option DataHandle) :=
  match slots.lookup sid with
  | some (Slot.resolved v) => some v
  | _ => none

/-- The synchronous prefix of ReadThroughDataSource.Read: a cache hit
returns the existing promise slot (first component false: this call runs no
body and triggers no fetch); a miss installs a fresh pending slot under the
uri — synchronously, before any asynchronous code runs — and returns it
(first component true: this call owns the asynchronous body). -/
def readSync (st : RTState) (uri : JStr) : Bool × Nat × RTState :=
  match st.cache.lookup uri with
  | some sid => (false, sid, st)
  | none =>
    (true, st.nextSlot,
     { st with
        cache := (uri, st.nextSlot) :: st.cache
        slots := (st.nextSlot, Slot.pending) :: st.slots
        nextSlot := st.nextSlot + 1 })

/-- The asynchronous body of ReadThroughDataSource.Read, run only by the
call that installed the slot: probe the store (on a hit record the uri and
resolve the slot with the existing handle); on a miss consult the external
accessor; absent or empty content resolves the slot to null with no store
write and no uri recorded; otherwise substitute the folder placeholder with
the uri's parent location, write the result into the store tagged as an
input-file artifact with identity [uri], record the uri and resolve the slot
with the new handle.  The second component counts external accessor
invocations. -/
def readAsyncBody (fetch : JStr → Option JStr) (st : RTState) (uri : JStr)
    (sid : Nat) : RTState × Nat :=
  match ReadDS st.ds uri with
  | .ok h =>
    ({ st with
        uris := st.uris ++ [uri]
        slots := setSlot st.slots sid (Slot.resolved (some h)) }, 0)
  | .error _ =>
    match fetch uri with
    | none => ({ st with slots := setSlot st.slots sid (Slot.resolved none) }, 1)
    | some s =>
      if s = [] then
        ({ st with slots := setSlot st.slots sid (Slot.resolved none) }, 1)
      else
        let s2 := replaceThisFolder (ParentFolderUri uri) s
        let res := WriteData st.ds uri s2 inputFileTag [uri] none
        match res.1 with
        | .ok h =>
          ({ st with
              ds := res.2
              uris := st.uris ++ [uri]
              slots := setSlot st.slots sid (Slot.resolved (some h)) }, 1)
        | .error _ =>
          ({ st with
              ds := res.2
              slots := setSlot st.slots sid Slot.failed }, 1)

/-- One whole Read call under sequential execution: the synchronous prefix
followed, for the installing caller only, by the asynchronous body; the
first component is the resolved value of the awaited slot, the last counts
external accessor invocations. -/
def readFull (fetch : JStr → Option JStr) (st : RTState) (uri : JStr) :
    Option (Option DataHandle) × RTState × Nat :=
  let r := readSync st uri
  if r.1 then
    let b := readAsyncBody fetch r.2.2 uri r.2.1
    (slotValue b.1.slots r.2.1, b.1, b.2)
  else
    (slotValue r.2.2.slots r.2.1, r.2.2, 0)

theorem writeData_store_length (st : DSState) (description data artifact : JStr)
    (identity : List JStr) (factory : Option (DataHandle → RawSourceMap)) :
    (WriteData st description data artifact identity factory).2.store.length
      ≤ st.store.length + 1 := by
  unfold WriteData WriteDataInternal
  by_cases hc : ({ st with uid := st.uid + 1 } : DSState).cancelled = true
  · rw [if_pos hc]
    dsimp only
    omega
  · rw [if_neg hc]
    by_cases hocc : (({ st with uid := st.uid + 1 } : DSState).store.lookup
        (createUri st.uid description)).isSome = true
    · rw [if_pos hocc]
      dsimp only
      omega
    · rw [if_neg hocc]
      dsimp only
      simp only [List.length_cons]
      omega

theorem readAsyncBody_bounds (fetch : JStr → Option JStr) (st : RTState)
    (uri : JStr) (sid : Nat) :
    (readAsyncBody fetch st uri sid).2 ≤ 1 ∧
    (readAsyncBody fetch st uri sid).1.ds.store.length
      ≤ st.ds.store.length + 1 := by
  unfold readAsyncBody
  dsimp only
  split
  · dsimp only
    omega
  · split
    · dsimp only
      omega
    · split
      · dsimp only
        omega
      · split
        · dsimp only
          refine ⟨le_refl 1, ?_⟩
          exact writeData_store_length st.ds uri _ inputFileTag [uri] none
        · dsimp only
          refine ⟨le_refl 1, ?_⟩
          exact writeData_store_length st.ds uri _ inputFileTag [uri] none

theorem lookup_setSlot_cons (slots : List (Nat × Slot)) (sid : Nat) (v0 v : Slot) :
    (setSlot ((sid, v0) :: slots) sid v).lookup sid = some v := by
  unfold setSlot
  simp only [List.map_cons, if_pos rfl]
  exact lookup_cons_self _ _ _

theorem slotValue_setSlot_cons (slots : List (Nat × Slot)) (sid : Nat)
    (v0 : Slot) (w : Option DataHandle) :
    slotValue (setSlot ((sid, v0) :: slots) sid (Slot.resolved w)) sid = some w := by
  unfold slotValue
  rw [lookup_setSlot_cons]

/-! ### C6: read-through deduplication -/

/-- C6: with no cache entry for the uri, the first Read installs the promise
slot for the uri synchronously (before the asynchronous body runs); a second
Read of the same uri arriving before the first body has run does not own a
body (first component false), returns the very same slot — so both calls
await one promise and resolve to the same outcome and key — and leaves the
state untouched; and the whole scenario consults the external accessor at
most once and adds at most one key to the store. -/
theorem c6_read_through_dedup (st : RTState) (uri : JStr)
    (fetch : JStr → Option JStr) (hmiss : st.cache.lookup uri = none) :
    (readSync st uri).1 = true ∧
    (readSync st uri).2.2.cache.lookup uri = some (readSync st uri).2.1 ∧
    (readSync (readSync st uri).2.2 uri).1 = false ∧
    (readSync (readSync st uri).2.2 uri).2.1 = (readSync st uri).2.1 ∧
    (readSync (readSync st uri).2.2 uri).2.2 = (readSync st uri).2.2 ∧
    (readAsyncBody fetch (readSync (readSync st uri).2.2 uri).2.2 uri
        (readSync st uri).2.1).2 ≤ 1 ∧
    (readAsyncBody fetch (readSync (readSync st uri).2.2 uri).2.2 uri
        (readSync st uri).2.1).1.ds.store.length
      ≤ st.ds.store.length + 1 := by
  have hsync1 : readSync st uri
      = (true, st.nextSlot,
         { st with
            cache := (uri, st.nextSlot) :: st.cache
            slots := (st.nextSlot, Slot.pending) :: st.slots
            nextSlot := st.nextSlot + 1 }) := by
    unfold readSync
    rw [hmiss]
  have hlk1 : (readSync st uri).2.2.cache.lookup uri = some st.nextSlot := by
    rw [hsync1]
    exact lookup_cons_self _ _ _
  have hsync2 : readSync (readSync st uri).2.2 uri
      = (false, st.nextSlot, (readSync st uri).2.2) := by
    rw [hsync1]
    unfold readSync
    dsimp only
    rw [lookup_cons_self]
  obtain ⟨hcount, hstore⟩ := readAsyncBody_bounds fetch
    (readSync (readSync st uri).2.2 uri).2.2 uri (readSync st uri).2.1
  have hds : (readSync (readSync st uri).2.2 uri).2.2.ds = st.ds := by
    rw [hsync2, hsync1]
  refine ⟨by rw [hsync1], by rw [hsync1] at hlk1 ⊢; exact hlk1, by rw [hsync2],
    by rw [hsync2, hsync1], by rw [hsync2], hcount, ?_⟩
  rw [hds] at hstore
  exact hstore

/-- Empty read-through view over the empty store. -/
def rt0 : RTState := ⟨st0, [], [], [], 0⟩

/-- A concrete external uri. -/
def uriEx : JStr := ['f', 'i', 'l', 'e', ':', '/', '/', 'a', '/', 'b']

/-- Witness for C6 at the empty view with a concrete accessor. -/
theorem c6_read_through_dedup_witness :
    (rt0.cache.lookup uriEx = none) ∧
    ((readSync rt0 uriEx).1 = true ∧
     (readSync rt0 uriEx).2.2.cache.lookup uriEx = some (readSync rt0 uriEx).2.1 ∧
     (readSync (readSync rt0 uriEx).2.2 uriEx).1 = false ∧
     (readSync (readSync rt0 uriEx).2.2 uriEx).2.1 = (readSync rt0 uriEx).2.1 ∧
     (readSync (readSync rt0 uriEx).2.2 uriEx).2.2 = (readSync rt0 uriEx).2.2 ∧
     (readAsyncBody (fun _ => some ['h', 'i'])
         (readSync (readSync rt0 uriEx).2.2 uriEx).2.2 uriEx
         (readSync rt0 uriEx).2.1).2 ≤ 1 ∧
     (readAsyncBody (fun _ => some ['h', 'i'])
         (readSync (readSync rt0 uriEx).2.2 uriEx).2.2 uriEx
         (readSync rt0 uriEx).2.1).1.ds.store.length
       ≤ rt0.ds.store.length + 1) :=
  ⟨by decide, c6_read_through_dedup rt0 uriEx (fun _ => some ['h', 'i'])
    (by decide)⟩

/-! ### C7: placeholder substitution on read-through -/

/-- C7: reading a uri that is neither cached nor in the store, whose
external fetch yields nonempty text, writes into the store (under the fresh
key created from the uri as description) that text with every occurrence of
the folder-placeholder token replaced by the uri's parent folder location,
tagged as an input-file artifact with identity [uri], records the uri for
enumeration, and resolves to the handle of the newly written artifact. -/
theorem c7_placeholder_substitution (st : RTState) (uri : JStr)
    (fetch : JStr → Option JStr) (s : JStr)
    (hmiss : st.cache.lookup uri = none)
    (hstore : st.ds.store.lookup (ResolveUri memRoot uri) = none)
    (hfetch : fetch uri = some s) (hs : ¬s = [])
    (hwf : WF st.ds) (hnc : st.ds.cancelled = false) :
    (readFull fetch st uri).1
      = some (some ⟨createUri st.ds.uid uri, st.ds.nextRid⟩) ∧
    readRecord (readFull fetch st uri).2.1.ds (createUri st.ds.uid uri)
      = some ⟨replaceThisFolder (ParentFolderUri uri) s, inputFileTag, [uri]⟩ ∧
    (readFull fetch st uri).2.1.uris = st.uris ++ [uri] := by
  have hsync1 : readSync st uri
      = (true, st.nextSlot,
         { st with
            cache := (uri, st.nextSlot) :: st.cache
            slots := (st.nextSlot, Slot.pending) :: st.slots
            nextSlot := st.nextSlot + 1 }) := by
    unfold readSync
    rw [hmiss]
  have hprobe : ReadDS st.ds uri = .error (.NotFound (ResolveUri memRoot uri)) := by
    unfold ReadDS
    dsimp only
    rw [hstore]
  obtain ⟨hwr, hwst⟩ := writeData_ok hwf hnc uri
    (replaceThisFolder (ParentFolderUri uri) s) inputFileTag [uri] none
  have hbody : readAsyncBody fetch (readSync st uri).2.2 uri st.nextSlot
      = ({ (readSync st uri).2.2 with
            ds := (WriteData st.ds uri (replaceThisFolder (ParentFolderUri uri) s)
              inputFileTag [uri] none).2
            uris := (readSync st uri).2.2.uris ++ [uri]
            slots := setSlot (readSync st uri).2.2.slots st.nextSlot
              (Slot.resolved (some ⟨createUri st.ds.uid uri, st.ds.nextRid⟩)) },
         1) := by
    unfold readAsyncBody
    rw [hsync1]
    dsimp only
    rw [hprobe, hfetch]
    dsimp only
    rw [if_neg hs]
    rw [hwr]
  have hfull : readFull fetch st uri
      = (slotValue (readAsyncBody fetch (readSync st uri).2.2 uri
            st.nextSlot).1.slots st.nextSlot,
         (readAsyncBody fetch (readSync st uri).2.2 uri st.nextSlot).1,
         (readAsyncBody fetch (readSync st uri).2.2 uri st.nextSlot).2) := by
    unfold readFull
    rw [hsync1]
    simp
  refine ⟨?_, ?_, ?_⟩
  · rw [hfull]
    dsimp only
    rw [hbody]
    dsimp only
    rw [hsync1]
    dsimp only
    exact slotValue_setSlot_cons _ _ _ _
  · rw [hfull]
    dsimp only
    rw [hbody]
    dsimp only
    rw [hwst]
    unfold readRecord
    dsimp only
    rw [lookup_cons_self, Option.some_bind]
    rw [lookup_cons_self]
  · rw [hfull]
    dsimp only
    rw [hbody]
    dsimp only
    rw [hsync1]

/-- Accessor for the C7 witness: content that contains the placeholder
token. -/
def fetchEx : JStr → Option JStr :=
  fun _ => some (thisFolderToken ++ ['/', 'x'])

/-- Witness for C7 at the empty view: the stored text is the parent folder
location followed by the suffix — the token was substituted. -/
theorem c7_placeholder_substitution_witness :
    (rt0.cache.lookup uriEx = none ∧
     rt0.ds.store.lookup (ResolveUri memRoot uriEx) = none ∧
     fetchEx uriEx = some (thisFolderToken ++ ['/', 'x']) ∧
     replaceThisFolder (ParentFolderUri uriEx) (thisFolderToken ++ ['/', 'x'])
       = ['f', 'i', 'l', 'e', ':', '/', '/', 'a', '/', 'x']) ∧
    ((readFull fetchEx rt0 uriEx).1
        = some (some ⟨createUri 0 uriEx, 0⟩) ∧
     readRecord (readFull fetchEx rt0 uriEx).2.1.ds (createUri 0 uriEx)
        = some ⟨replaceThisFolder (ParentFolderUri uriEx)
            (thisFolderToken ++ ['/', 'x']), inputFileTag, [uriEx]⟩ ∧
     (readFull fetchEx rt0 uriEx).2.1.uris = rt0.uris ++ [uriEx]) :=
  ⟨⟨by decide, by decide, by decide, by decide⟩,
   c7_placeholder_substitution rt0 uriEx fetchEx (thisFolderToken ++ ['/', 'x'])
     (by decide) (by decide) (by decide) (by decide) wf_st0 (by decide)⟩


/-- A Read whose uri already has a promise slot returns that slot's value
without running any body: the state is untouched and no accessor runs. -/
theorem readFull_hit {st : RTState} {uri : JStr} {sid : Nat}
    (h : st.cache.lookup uri = some sid) (fetch : JStr → Option JStr) :
    readFull fetch st uri = (slotValue st.slots sid, st, 0) := by
  unfold readFull readSync
  rw [h]
  rfl

/-! ### C10: negative outcome is cached -/

/-- C10: reading a uri absent from the store whose accessor yields no
content resolves to null, writes nothing into the store, and records nothing
for enumeration; the null outcome is cached under the uri, so a later Read
of the same uri — even through an accessor that now has content — resolves
to null without consulting any accessor and without touching the state. -/
theorem c10_negative_cached (st : RTState) (uri : JStr)
    (fetch fetch2 : JStr → Option JStr)
    (hmiss : st.cache.lookup uri = none)
    (hstore : st.ds.store.lookup (ResolveUri memRoot uri) = none)
    (hfetch : fetch uri = none) :
    (readFull fetch st uri).1 = some none ∧
    (readFull fetch st uri).2.1.ds = st.ds ∧
    (readFull fetch st uri).2.1.uris = st.uris ∧
    (readFull fetch2 (readFull fetch st uri).2.1 uri).1 = some none ∧
    (readFull fetch2 (readFull fetch st uri).2.1 uri).2.1
      = (readFull fetch st uri).2.1 ∧
    (readFull fetch2 (readFull fetch st uri).2.1 uri).2.2 = 0 := by
  have hsync1 : readSync st uri
      = (true, st.nextSlot,
         { st with
            cache := (uri, st.nextSlot) :: st.cache
            slots := (st.nextSlot, Slot.pending) :: st.slots
            nextSlot := st.nextSlot + 1 }) := by
    unfold readSync
    rw [hmiss]
  have hprobe : ReadDS st.ds uri = .error (.NotFound (ResolveUri memRoot uri)) := by
    unfold ReadDS
    dsimp only
    rw [hstore]
  have hbody : readAsyncBody fetch (readSync st uri).2.2 uri st.nextSlot
      = ({ (readSync st uri).2.2 with
            slots := setSlot (readSync st uri).2.2.slots st.nextSlot
              (Slot.resolved none) }, 1) := by
    unfold readAsyncBody
    rw [hsync1]
    dsimp only
    rw [hprobe, hfetch]
  have hfull1 : readFull fetch st uri
      = (slotValue (readAsyncBody fetch (readSync st uri).2.2 uri
            st.nextSlot).1.slots st.nextSlot,
         (readAsyncBody fetch (readSync st uri).2.2 uri st.nextSlot).1,
         (readAsyncBody fetch (readSync st uri).2.2 uri st.nextSlot).2) := by
    unfold readFull
    rw [hsync1]
    simp
  have hslotv : slotValue (readAsyncBody fetch (readSync st uri).2.2 uri
      st.nextSlot).1.slots st.nextSlot = some none := by
    rw [hbody]
    dsimp only
    rw [hsync1]
    dsimp only
    exact slotValue_setSlot_cons _ _ _ _
  have hcache2 : (readFull fetch st uri).2.1.cache.lookup uri
      = some st.nextSlot := by
    rw [hfull1]
    dsimp only
    rw [hbody]
    dsimp only
    rw [hsync1]
    dsimp only
    exact lookup_cons_self _ _ _
  have hslots2 : (readFull fetch st uri).2.1.slots.lookup st.nextSlot
      = some (Slot.resolved none) := by
    rw [hfull1]
    dsimp only
    rw [hbody]
    dsimp only
    rw [hsync1]
    dsimp only
    exact lookup_setSlot_cons _ _ _ _
  refine ⟨?_, ?_, ?_, ?_, ?_, ?_⟩
  · rw [hfull1]
    dsimp only
    exact hslotv
  · rw [hfull1]
    dsimp only
    rw [hbody]
    dsimp only
    rw [hsync1]
  · rw [hfull1]
    dsimp only
    rw [hbody]
    dsimp only
    rw [hsync1]
  · rw [readFull_hit hcache2 fetch2]
    dsimp only
    unfold slotValue
    rw [hslots2]
  · rw [readFull_hit hcache2 fetch2]
  · rw [readFull_hit hcache2 fetch2]

/-- Witness for C10 at the empty view, with a second accessor that does have
content and is still ignored. -/
theorem c10_negative_cached_witness :
    (rt0.cache.lookup uriEx = none ∧
     rt0.ds.store.lookup (ResolveUri memRoot uriEx) = none) ∧
    ((readFull (fun _ => none) rt0 uriEx).1 = some none ∧
     (readFull (fun _ => none) rt0 uriEx).2.1.ds = rt0.ds ∧
     (readFull (fun _ => none) rt0 uriEx).2.1.uris = rt0.uris ∧
     (readFull fetchEx (readFull (fun _ => none) rt0 uriEx).2.1 uriEx).1
        = some none ∧
     (readFull fetchEx (readFull (fun _ => none) rt0 uriEx).2.1 uriEx).2.1
        = (readFull (fun _ => none) rt0 uriEx).2.1 ∧
     (readFull fetchEx (readFull (fun _ => none) rt0 uriEx).2.1 uriEx).2.2
        = 0) :=
  ⟨⟨by decide, by decide⟩,
   c10_negative_cached rt0 uriEx (fun _ => none) fetchEx
     (by decide) (by decide) (by decide)⟩

end DataStoreModel
